import Mathlib

/-! Shallow embedding of the recipe-management API core: an ownership-scoped
repository over stores of Recipe, Tag and Ingredient records, with nested
tag/ingredient reconciliation on recipe writes.

The repository implementation itself (models, views, serializers) is not
among the given source files; only its tests, URL wiring and a management
command are. The operations below are therefore modelled from the spec
(section 4.1, "Ownership-Scoped Repository") and checked for consistency
against the behaviours the test files under src/app/recipe/tests exercise.
Users are identified by numeric ids; `user` is the owner reference, named
after the foreign-key field the test files use (`Recipe.objects.create(user=...)`).
-/

namespace RecipeApp

/-- Modelled from the spec: a Tag record `{ id, name, owner }`
(spec section 3, data model; owner field named `user` as in the tests). -/
structure Tag where
  id : Nat
  name : String
  user : Nat
  deriving Repr, DecidableEq

/-- Modelled from the spec: an Ingredient record `{ id, name, owner }`. -/
structure Ingredient where
  id : Nat
  name : String
  user : Nat
  deriving Repr, DecidableEq

/-- Modelled from the spec: a Recipe record
`{ id, title, time_minutes, price, description, link, owner, tags, ingredients }`.
`price` is a fixed-point decimal, embedded as an integer number of cents;
`time_minutes` is embedded as `Int` so that the negative-value validation
rule is expressible. `tags`/`ingredients` hold the ids of associated
entities (the many-to-many association set). -/
structure Recipe where
  id : Nat
  title : String
  time_minutes : Int
  price : Int
  description : String
  link : String
  user : Nat
  tags : List Nat
  ingredients : List Nat
  deriving Repr, DecidableEq

/-- Modelled from the spec: the persistent Entity Store, plus a fresh-id
counter standing for the database's autoincrementing primary key. -/
structure Store where
  recipes : List Recipe
  tags : List Tag
  ingredients : List Ingredient
  nextId : Nat
  deriving Repr, DecidableEq

/-- Modelled from the spec: the error taxonomy the repository surfaces —
NotFound (404) and ValidationError (400). Unauthenticated (401) is handled
by the transport layer before the repository is reached. -/
inductive ApiError where
  | notFound
  | validationError
  deriving Repr, DecidableEq

/-- Modelled from the spec: an update payload for a Recipe. A `none` field
was absent from the payload; `user` is a caller attempt to set the owner;
`tags`/`ingredients` are descriptor lists of names (`[{name}]`). -/
structure RecipeFields where
  title : Option String := none
  time_minutes : Option Int := none
  price : Option Int := none
  description : Option String := none
  link : Option String := none
  user : Option Nat := none
  tags : Option (List String) := none
  ingredients : Option (List String) := none
  deriving Repr

/-- Modelled from the spec: an update payload for a Tag. -/
structure TagFields where
  name : Option String := none
  user : Option Nat := none
  deriving Repr

/-- Modelled from the spec: an update payload for an Ingredient. -/
structure IngredientFields where
  name : Option String := none
  user : Option Nat := none
  deriving Repr

/-- Modelled from the spec: partial (merge) vs full (replace) update mode,
i.e. HTTP PATCH vs PUT. -/
inductive UpdateMode where
  | patch
  | put
  deriving Repr, DecidableEq

/-- The ownership-scoped recipe lookup predicate: owned by `p`, with id `rid`. -/
def recipeOwnedBy (p rid : Nat) (r : Recipe) : Bool :=
  r.user == p && r.id == rid

/-- The ownership-scoped tag lookup predicate. -/
def tagOwnedBy (p tid : Nat) (t : Tag) : Bool :=
  t.user == p && t.id == tid

/-- The ownership-scoped ingredient lookup predicate. -/
def ingredientOwnedBy (p iid : Nat) (i : Ingredient) : Bool :=
  i.user == p && i.id == iid

/-- The (owner, name) key lookup predicate used by reconciliation. -/
def tagKeyIs (p : Nat) (n : String) (t : Tag) : Bool :=
  t.user == p && t.name == n

/-- The (owner, name) key lookup predicate for ingredients. -/
def ingredientKeyIs (p : Nat) (n : String) (i : Ingredient) : Bool :=
  i.user == p && i.name == n

/-- Modelled from the spec: get-or-create of a Tag under owner `p` with a
given name — look up an existing tag with matching (owner, name); reuse it
if found, otherwise create a new one with a fresh id. Returns the id of
the resolved tag and the possibly-extended store. -/
def getOrCreateTag (p : Nat) (n : String) (s : Store) : Nat × Store :=
  match s.tags.find? (tagKeyIs p n) with
  | some t => (t.id, s)
  | none =>
      (s.nextId,
       { s with
           tags := s.tags ++ [{ id := s.nextId, name := n, user := p }],
           nextId := s.nextId + 1 })

/-- Modelled from the spec: get-or-create of an Ingredient under owner `p`. -/
def getOrCreateIngredient (p : Nat) (n : String) (s : Store) : Nat × Store :=
  match s.ingredients.find? (ingredientKeyIs p n) with
  | some i => (i.id, s)
  | none =>
      (s.nextId,
       { s with
           ingredients := s.ingredients ++ [{ id := s.nextId, name := n, user := p }],
           nextId := s.nextId + 1 })

/-- Modelled from the spec: nested-entity reconciliation for a tag
descriptor list — resolve each `{name}` in order by get-or-create under the
recipe's owner, collecting the resolved ids. -/
def reconcileTags (p : Nat) (names : List String) (s : Store) : List Nat × Store :=
  match names with
  | [] => ([], s)
  | n :: rest =>
      let g := getOrCreateTag p n s
      let rec2 := reconcileTags p rest g.2
      (g.1 :: rec2.1, rec2.2)

/-- Modelled from the spec: nested-entity reconciliation for an ingredient
descriptor list. -/
def reconcileIngredients (p : Nat) (names : List String) (s : Store) : List Nat × Store :=
  match names with
  | [] => ([], s)
  | n :: rest =>
      let g := getOrCreateIngredient p n s
      let rec2 := reconcileIngredients p rest g.2
      (g.1 :: rec2.1, rec2.2)

/-- Modelled from the spec: `get(principal, recipe, id)` — NotFound when no
recipe with that id exists among the principal's owned recipes (a
foreign-owned id is indistinguishable from an absent one). -/
def getRecipe (p rid : Nat) (s : Store) : Except ApiError Recipe :=
  match s.recipes.find? (recipeOwnedBy p rid) with
  | some r => .ok r
  | none => .error .notFound

/-- Modelled from the spec: `get(principal, tag, id)`. -/
def getTag (p tid : Nat) (s : Store) : Except ApiError Tag :=
  match s.tags.find? (tagOwnedBy p tid) with
  | some t => .ok t
  | none => .error .notFound

/-- Modelled from the spec: `get(principal, ingredient, id)`. -/
def getIngredient (p iid : Nat) (s : Store) : Except ApiError Ingredient :=
  match s.ingredients.find? (ingredientOwnedBy p iid) with
  | some i => .ok i
  | none => .error .notFound

/-- Modelled from the spec: `delete(principal, recipe, id)` — NotFound under
the same ownership-scoped rule as `get`; removes the recipe; does not
cascade-delete associated tags/ingredients. A failed call leaves the store
untouched. -/
def deleteRecipe (p rid : Nat) (s : Store) : Option ApiError × Store :=
  match s.recipes.find? (recipeOwnedBy p rid) with
  | none => (some .notFound, s)
  | some _ => (none, { s with recipes := s.recipes.filter (fun r => !(r.id == rid)) })

/-- Modelled from the spec: `delete(principal, tag, id)`. -/
def deleteTag (p tid : Nat) (s : Store) : Option ApiError × Store :=
  match s.tags.find? (tagOwnedBy p tid) with
  | none => (some .notFound, s)
  | some _ => (none, { s with tags := s.tags.filter (fun t => !(t.id == tid)) })

/-- Modelled from the spec: `delete(principal, ingredient, id)`. -/
def deleteIngredient (p iid : Nat) (s : Store) : Option ApiError × Store :=
  match s.ingredients.find? (ingredientOwnedBy p iid) with
  | none => (some .notFound, s)
  | some _ => (none, { s with ingredients := s.ingredients.filter (fun i => !(i.id == iid)) })

/-- Modelled from the spec: `create(principal, recipe, fields)` — requires
title, time_minutes and price (ValidationError when missing or negative);
reconciles the tag and ingredient descriptor lists under the new recipe's
owner and persists the recipe with those associations; the owner is always
the acting principal, never caller-supplied. -/
def createRecipe (p : Nat) (f : RecipeFields) (s : Store) : Option ApiError × Store :=
  match f.title, f.time_minutes, f.price with
  | some ttl, some tm, some pr =>
      if tm < 0 || pr < 0 then (some .validationError, s)
      else
        let rid := s.nextId
        let s0 := { s with nextId := s.nextId + 1 }
        let rt := reconcileTags p (f.tags.getD []) s0
        let ri := reconcileIngredients p (f.ingredients.getD []) rt.2
        let r : Recipe :=
          { id := rid, title := ttl, time_minutes := tm, price := pr,
            description := f.description.getD "", link := f.link.getD "",
            user := p, tags := rt.1.dedup, ingredients := ri.1.dedup }
        (none, { ri.2 with recipes := ri.2.recipes ++ [r] })
  | _, _, _ => (some .validationError, s)

/-- Modelled from the spec: apply the scalar (non-association) fields of an
update payload to a recipe. Partial mode merges only supplied fields; full
mode replaces the whole record except identity and owner, so absent
optional fields reset to their blank defaults. A caller-supplied `user`
field is ignored in both modes: the owner is immutable post-creation. -/
def applyScalars (mode : UpdateMode) (f : RecipeFields) (r : Recipe) : Recipe :=
  match mode with
  | .patch =>
      { r with
          title := f.title.getD r.title,
          time_minutes := f.time_minutes.getD r.time_minutes,
          price := f.price.getD r.price,
          description := f.description.getD r.description,
          link := f.link.getD r.link }
  | .put =>
      { r with
          title := f.title.getD r.title,
          time_minutes := f.time_minutes.getD r.time_minutes,
          price := f.price.getD r.price,
          description := f.description.getD "",
          link := f.link.getD "" }

/-- Modelled from the spec: association replacement on a recipe write — a
supplied `tags`/`ingredients` key fully replaces that association set with
the reconciled set (an empty descriptor list clears it); an absent key
leaves the existing association set untouched. Returns the recipe with its
new association sets together with the possibly-extended store. -/
def applyAssoc (p : Nat) (f : RecipeFields) (r1 : Recipe) (s : Store) : Recipe × Store :=
  let rt : List Nat × Store :=
    match f.tags with
    | none => (r1.tags, s)
    | some names =>
        let g := reconcileTags p names s
        (g.1.dedup, g.2)
  let ri : List Nat × Store :=
    match f.ingredients with
    | none => (r1.ingredients, rt.2)
    | some names =>
        let g := reconcileIngredients p names rt.2
        (g.1.dedup, g.2)
  ({ r1 with tags := rt.1, ingredients := ri.1 }, ri.2)

/-- Modelled from the spec: `update(principal, recipe, id, fields, mode)` —
NotFound under the ownership-scoped rule; full mode requires title,
time_minutes and price; negative numerics fail validation; scalars are
merged (partial) or replaced (full) and association sets replaced per
`applyAssoc`; the owner field in the payload is silently ignored. A failed
call leaves the store untouched. -/
def updateRecipe (p rid : Nat) (f : RecipeFields) (mode : UpdateMode) (s : Store) :
    Option ApiError × Store :=
  match s.recipes.find? (recipeOwnedBy p rid) with
  | none => (some .notFound, s)
  | some r =>
      let missing : Bool :=
        match mode with
        | .put => f.title.isNone || f.time_minutes.isNone || f.price.isNone
        | .patch => false
      if missing then (some .validationError, s)
      else if f.time_minutes.getD 0 < 0 || f.price.getD 0 < 0 then
        (some .validationError, s)
      else
        let ur := applyAssoc p f (applyScalars mode f r) s
        (none,
         { ur.2 with
             recipes := ur.2.recipes.map (fun x => if x.id == rid then ur.1 else x) })

/-- Modelled from the spec: `update(principal, tag, id, fields)` — NotFound
under the ownership-scoped rule; merges the supplied name; a caller
attempt to set the owner is ignored. -/
def updateTag (p tid : Nat) (f : TagFields) (s : Store) : Option ApiError × Store :=
  match s.tags.find? (tagOwnedBy p tid) with
  | none => (some .notFound, s)
  | some t =>
      let t2 := { t with name := f.name.getD t.name }
      (none, { s with tags := s.tags.map (fun x => if x.id == tid then t2 else x) })

/-- Modelled from the spec: `update(principal, ingredient, id, fields)`. -/
def updateIngredient (p iid : Nat) (f : IngredientFields) (s : Store) :
    Option ApiError × Store :=
  match s.ingredients.find? (ingredientOwnedBy p iid) with
  | none => (some .notFound, s)
  | some i =>
      let i2 := { i with name := f.name.getD i.name }
      (none, { s with ingredients := s.ingredients.map (fun x => if x.id == iid then i2 else x) })

/-- Recipes order newest-first: by id descending. -/
def recipeDesc (a b : Recipe) : Prop := b.id ≤ a.id

/-- Tags order by name descending. -/
def tagDesc (a b : Tag) : Prop := b.name ≤ a.name

/-- Ingredients order by name descending. -/
def ingredientDesc (a b : Ingredient) : Prop := b.name ≤ a.name

instance : DecidableRel recipeDesc := fun a b => inferInstanceAs (Decidable (b.id ≤ a.id))

instance : DecidableRel tagDesc := fun a b => inferInstanceAs (Decidable (b.name ≤ a.name))

instance : DecidableRel ingredientDesc :=
  fun a b => inferInstanceAs (Decidable (b.name ≤ a.name))

instance : IsTotal Recipe recipeDesc := ⟨fun a b => le_total b.id a.id⟩

instance : IsTrans Recipe recipeDesc := ⟨fun _ _ _ h1 h2 => le_trans h2 h1⟩

instance : IsTotal Tag tagDesc := ⟨fun a b => le_total b.name a.name⟩

instance : IsTrans Tag tagDesc := ⟨fun _ _ _ h1 h2 => le_trans h2 h1⟩

instance : IsTotal Ingredient ingredientDesc := ⟨fun a b => le_total b.name a.name⟩

instance : IsTrans Ingredient ingredientDesc := ⟨fun _ _ _ h1 h2 => le_trans h2 h1⟩

/-- Modelled from the spec: `list(principal, recipe)` — all recipes owned by
the principal, ordered by id descending. -/
def listRecipes (p : Nat) (s : Store) : List Recipe :=
  List.insertionSort recipeDesc (s.recipes.filter (fun r => r.user == p))

/-- Modelled from the spec: `list(principal, tag)` — all tags owned by the
principal, ordered by name descending. -/
def listTags (p : Nat) (s : Store) : List Tag :=
  List.insertionSort tagDesc (s.tags.filter (fun t => t.user == p))

/-- Modelled from the spec: `list(principal, ingredient)` — all ingredients
owned by the principal, ordered by name descending. -/
def listIngredients (p : Nat) (s : Store) : List Ingredient :=
  List.insertionSort ingredientDesc (s.ingredients.filter (fun i => i.user == p))

/-- The soft uniqueness convention on tag keys: no two stored tags share
the same (owner, name) pair. Maintained by the get-or-create logic. -/
def TagKeysNodup (s : Store) : Prop :=
  s.tags.Pairwise (fun a b => a.user ≠ b.user ∨ a.name ≠ b.name)

/-- The soft uniqueness convention on ingredient keys. -/
def IngredientKeysNodup (s : Store) : Prop :=
  s.ingredients.Pairwise (fun a b => a.user ≠ b.user ∨ a.name ≠ b.name)

instance (s : Store) : Decidable (TagKeysNodup s) := by
  unfold TagKeysNodup; infer_instance

instance (s : Store) : Decidable (IngredientKeysNodup s) := by
  unfold IngredientKeysNodup; infer_instance

/-- Database primary keys are unique: no two stored recipes share an id. -/
def RecipeIdsNodup (s : Store) : Prop := (s.recipes.map Recipe.id).Nodup

/-- No two stored tags share an id. -/
def TagIdsNodup (s : Store) : Prop := (s.tags.map Tag.id).Nodup

/-- No two stored ingredients share an id. -/
def IngredientIdsNodup (s : Store) : Prop := (s.ingredients.map Ingredient.id).Nodup

instance (s : Store) : Decidable (RecipeIdsNodup s) := by
  unfold RecipeIdsNodup; infer_instance

instance (s : Store) : Decidable (TagIdsNodup s) := by
  unfold TagIdsNodup; infer_instance

instance (s : Store) : Decidable (IngredientIdsNodup s) := by
  unfold IngredientIdsNodup; infer_instance

/-- A concrete fixture: a store holding one recipe, one tag and one
ingredient, all owned by user 2, used to instantiate the theorems below. -/
def fixtureStore : Store :=
  { recipes :=
      [{ id := 5, title := "Sample recipe title", time_minutes := 22, price := 525,
         description := "Sample description", link := "http//example.com/recipe.pdf",
         user := 2, tags := [], ingredients := [] }],
    tags := [{ id := 6, name := "Diary", user := 2 }],
    ingredients := [{ id := 7, name := "Salt", user := 2 }],
    nextId := 8 }

/-- An empty store fixture. -/
def emptyStore : Store := { recipes := [], tags := [], ingredients := [], nextId := 0 }

/-- A payload with two tag descriptors and one ingredient descriptor, used
to exercise reconciliation idempotence. -/
def idemFields : RecipeFields :=
  { title := some "Thai Prawn Curry", time_minutes := some 30, price := some 250,
    tags := some ["Thai", "Dinner"], ingredients := some ["Salt"] }

/-- The claim's concrete scenario: user 1 already owns the Tag "Chinese". -/
def scenarioStore : Store :=
  { recipes := [], tags := [{ id := 0, name := "Chinese", user := 1 }],
    ingredients := [], nextId := 1 }

/-- The claim's concrete scenario payload: a recipe carrying the tag
descriptors `[{name: "Chinese"}, {name: "Japanese"}]`. -/
def scenarioFields : RecipeFields :=
  { title := some "Thai Prawn Curry", time_minutes := some 30, price := some 250,
    tags := some ["Chinese", "Japanese"], ingredients := some [] }

/-- A recipe owned by user 1, associated with tag 6 and ingredient 7. -/
def ownRecipe : Recipe :=
  { id := 5, title := "sample recipe title", time_minutes := 22, price := 525,
    description := "Sample description", link := "https://example.com/recipe.pdf",
    user := 1, tags := [6], ingredients := [7] }

/-- A store where user 1 owns one recipe, one tag and one ingredient. -/
def ownStore : Store :=
  { recipes := [ownRecipe],
    tags := [{ id := 6, name := "breakfast", user := 1 }],
    ingredients := [{ id := 7, name := "Salt", user := 1 }],
    nextId := 8 }

/-- A partial-update payload supplying only a new title. -/
def patchFields : RecipeFields := { title := some "new recipe title" }

/-- A full-update payload supplying every field. -/
def fullFields : RecipeFields :=
  { title := some "New Sample recipe title", time_minutes := some 30, price := some 625,
    description := some "New Sample description",
    link := some "http//example.com/new_recipe.pdf" }

/-- A full-update payload omitting the required title. -/
def missingFields : RecipeFields := { time_minutes := some 30, price := some 625 }

/-- An update payload replacing the tag association list and clearing the
ingredient association list. -/
def assocFields : RecipeFields := { tags := some ["dinner"], ingredients := some [] }

/-- An update payload attempting to overwrite the owner. -/
def ownerFields : RecipeFields := { user := some 2 }

lemma getOrCreateTag_recipes (p : Nat) (n : String) (s : Store) :
    ((getOrCreateTag p n s).2).recipes = s.recipes := by
  unfold getOrCreateTag
  cases s.tags.find? (tagKeyIs p n) <;> rfl

lemma getOrCreateTag_ingredients (p : Nat) (n : String) (s : Store) :
    ((getOrCreateTag p n s).2).ingredients = s.ingredients := by
  unfold getOrCreateTag
  cases s.tags.find? (tagKeyIs p n) <;> rfl

lemma getOrCreateTag_tags_append (p : Nat) (n : String) (s : Store) :
    ∃ l, ((getOrCreateTag p n s).2).tags = s.tags ++ l := by
  rcases hf : s.tags.find? (tagKeyIs p n) with _ | t
  · exact ⟨[{ id := s.nextId, name := n, user := p }], by simp [getOrCreateTag, hf]⟩
  · exact ⟨[], by simp [getOrCreateTag, hf]⟩

lemma getOrCreateTag_resolves (p : Nat) (n : String) (s : Store) :
    ∃ t ∈ ((getOrCreateTag p n s).2).tags,
      t.user = p ∧ t.name = n ∧ t.id = (getOrCreateTag p n s).1 := by
  rcases hf : s.tags.find? (tagKeyIs p n) with _ | t
  · refine ⟨{ id := s.nextId, name := n, user := p }, ?_, rfl, rfl, ?_⟩
    · simp [getOrCreateTag, hf]
    · simp [getOrCreateTag, hf]
  · have hmem := List.mem_of_find?_eq_some hf
    have hpred := List.find?_some hf
    simp only [tagKeyIs, Bool.and_eq_true, beq_iff_eq] at hpred
    exact ⟨t, by simp [getOrCreateTag, hf, hmem], hpred.1, hpred.2,
      by simp [getOrCreateTag, hf]⟩

lemma getOrCreateTag_new (p : Nat) (n : String) (s : Store) (t : Tag)
    (hmem : t ∈ ((getOrCreateTag p n s).2).tags) (hnew : t ∉ s.tags) :
    t.user = p ∧ t.name = n ∧ s.tags.find? (tagKeyIs p n) = none := by
  rcases hf : s.tags.find? (tagKeyIs p n) with _ | t0
  · simp only [getOrCreateTag, hf, List.mem_append, List.mem_singleton] at hmem
    rcases hmem with hmem | hmem
    · exact absurd hmem hnew
    · subst hmem; exact ⟨rfl, rfl, rfl⟩
  · simp only [getOrCreateTag, hf] at hmem
    exact absurd hmem hnew

lemma getOrCreateTag_stable (p : Nat) (n : String) (s : Store)
    (h : (s.tags.find? (tagKeyIs p n)).isSome) :
    (getOrCreateTag p n s).2 = s := by
  rcases hf : s.tags.find? (tagKeyIs p n) with _ | t
  · rw [hf] at h; simp at h
  · simp [getOrCreateTag, hf]

lemma getOrCreateTag_keys_nodup (p : Nat) (n : String) (s : Store)
    (h : TagKeysNodup s) : TagKeysNodup ((getOrCreateTag p n s).2) := by
  rcases hf : s.tags.find? (tagKeyIs p n) with _ | t
  · have hall := List.find?_eq_none.mp hf
    simp only [TagKeysNodup, getOrCreateTag, hf]
    rw [List.pairwise_append]
    refine ⟨h, by simp, ?_⟩
    intro a ha b hb
    simp only [List.mem_singleton] at hb
    subst hb
    have hp := hall a ha
    simp only [tagKeyIs, Bool.and_eq_true, beq_iff_eq, not_and] at hp
    by_cases hu : a.user = p
    · exact Or.inr fun hn2 => hp hu hn2
    · exact Or.inl hu
  · simpa only [TagKeysNodup, getOrCreateTag, hf] using h

lemma reconcileTags_recipes (p : Nat) (names : List String) (s : Store) :
    ((reconcileTags p names s).2).recipes = s.recipes := by
  induction names generalizing s with
  | nil => rfl
  | cons n rest ih =>
      simp only [reconcileTags]
      rw [ih, getOrCreateTag_recipes]

lemma reconcileTags_ingredients (p : Nat) (names : List String) (s : Store) :
    ((reconcileTags p names s).2).ingredients = s.ingredients := by
  induction names generalizing s with
  | nil => rfl
  | cons n rest ih =>
      simp only [reconcileTags]
      rw [ih, getOrCreateTag_ingredients]

lemma reconcileTags_tags_append (p : Nat) (names : List String) (s : Store) :
    ∃ l, ((reconcileTags p names s).2).tags = s.tags ++ l := by
  induction names generalizing s with
  | nil => exact ⟨[], by simp [reconcileTags]⟩
  | cons n rest ih =>
      simp only [reconcileTags]
      obtain ⟨l1, hl1⟩ := getOrCreateTag_tags_append p n s
      obtain ⟨l2, hl2⟩ := ih ((getOrCreateTag p n s).2)
      exact ⟨l1 ++ l2, by rw [hl2, hl1, List.append_assoc]⟩

lemma reconcileTags_resolves (p : Nat) (names : List String) (s : Store) :
    ∀ n ∈ names, ∃ t ∈ ((reconcileTags p names s).2).tags,
      t.user = p ∧ t.name = n ∧ t.id ∈ (reconcileTags p names s).1 := by
  induction names generalizing s with
  | nil => intro n hn; cases hn
  | cons m rest ih =>
      intro n hn
      simp only [reconcileTags]
      rcases List.mem_cons.mp hn with rfl | hn
      · obtain ⟨t, htmem, hu, hname, hid⟩ := getOrCreateTag_resolves p n s
        obtain ⟨l, hl⟩ := reconcileTags_tags_append p rest ((getOrCreateTag p n s).2)
        exact ⟨t, by rw [hl]; exact List.mem_append_left _ htmem, hu, hname,
          by rw [hid]; exact List.mem_cons_self _ _⟩
      · obtain ⟨t, htmem, hu, hname, hid⟩ := ih ((getOrCreateTag p m s).2) n hn
        exact ⟨t, htmem, hu, hname, List.mem_cons_of_mem _ hid⟩

lemma reconcileTags_new (p : Nat) (names : List String) (s : Store) :
    ∀ t ∈ ((reconcileTags p names s).2).tags, t ∉ s.tags →
      t.user = p ∧ t.name ∈ names ∧ s.tags.find? (tagKeyIs p t.name) = none := by
  induction names generalizing s with
  | nil => intro t ht hnot; exact absurd ht hnot
  | cons m rest ih =>
      intro t ht hnot
      simp only [reconcileTags] at ht
      by_cases hg : t ∈ ((getOrCreateTag p m s).2).tags
      · obtain ⟨hu, hname, hf⟩ := getOrCreateTag_new p m s t hg hnot
        exact ⟨hu, by rw [hname]; exact List.mem_cons_self _ _, by rw [hname]; exact hf⟩
      · obtain ⟨hu, hname, hf⟩ := ih ((getOrCreateTag p m s).2) t ht hg
        refine ⟨hu, List.mem_cons_of_mem _ hname, ?_⟩
        rw [List.find?_eq_none] at hf ⊢
        intro x hx
        obtain ⟨l, hl⟩ := getOrCreateTag_tags_append p m s
        exact hf x (by rw [hl]; exact List.mem_append_left _ hx)

lemma reconcileTags_ids (p : Nat) (names : List String) (s : Store) :
    ∀ tid ∈ (reconcileTags p names s).1, ∃ t ∈ ((reconcileTags p names s).2).tags,
      t.id = tid ∧ t.user = p ∧ t.name ∈ names := by
  induction names generalizing s with
  | nil => intro tid h; cases h
  | cons m rest ih =>
      intro tid h
      simp only [reconcileTags] at h ⊢
      rcases List.mem_cons.mp h with rfl | h
      · obtain ⟨t, htmem, hu, hname, hid⟩ := getOrCreateTag_resolves p m s
        obtain ⟨l, hl⟩ := reconcileTags_tags_append p rest ((getOrCreateTag p m s).2)
        exact ⟨t, by rw [hl]; exact List.mem_append_left _ htmem, hid, hu,
          by rw [hname]; exact List.mem_cons_self _ _⟩
      · obtain ⟨t, htmem, hid, hu, hname⟩ := ih ((getOrCreateTag p m s).2) tid h
        exact ⟨t, htmem, hid, hu, List.mem_cons_of_mem _ hname⟩

lemma reconcileTags_stable (p : Nat) (names : List String) (s : Store)
    (h : ∀ n ∈ names, (s.tags.find? (tagKeyIs p n)).isSome) :
    (reconcileTags p names s).2 = s := by
  induction names generalizing s with
  | nil => rfl
  | cons m rest ih =>
      simp only [reconcileTags]
      have hst : (getOrCreateTag p m s).2 = s :=
        getOrCreateTag_stable p m s (h m (List.mem_cons_self _ _))
      rw [hst]
      exact ih s (fun n hn => h n (List.mem_cons_of_mem _ hn))

lemma reconcileTags_keys_nodup (p : Nat) (names : List String) (s : Store)
    (h : TagKeysNodup s) : TagKeysNodup ((reconcileTags p names s).2) := by
  induction names generalizing s with
  | nil => exact h
  | cons m rest ih =>
      simp only [reconcileTags]
      exact ih _ (getOrCreateTag_keys_nodup p m s h)

lemma getOrCreateIngredient_recipes (p : Nat) (n : String) (s : Store) :
    ((getOrCreateIngredient p n s).2).recipes = s.recipes := by
  unfold getOrCreateIngredient
  cases s.ingredients.find? (ingredientKeyIs p n) <;> rfl

lemma getOrCreateIngredient_tags (p : Nat) (n : String) (s : Store) :
    ((getOrCreateIngredient p n s).2).tags = s.tags := by
  unfold getOrCreateIngredient
  cases s.ingredients.find? (ingredientKeyIs p n) <;> rfl

lemma getOrCreateIngredient_ingredients_append (p : Nat) (n : String) (s : Store) :
    ∃ l, ((getOrCreateIngredient p n s).2).ingredients = s.ingredients ++ l := by
  rcases hf : s.ingredients.find? (ingredientKeyIs p n) with _ | i
  · exact ⟨[{ id := s.nextId, name := n, user := p }], by simp [getOrCreateIngredient, hf]⟩
  · exact ⟨[], by simp [getOrCreateIngredient, hf]⟩

lemma getOrCreateIngredient_resolves (p : Nat) (n : String) (s : Store) :
    ∃ i ∈ ((getOrCreateIngredient p n s).2).ingredients,
      i.user = p ∧ i.name = n ∧ i.id = (getOrCreateIngredient p n s).1 := by
  rcases hf : s.ingredients.find? (ingredientKeyIs p n) with _ | i
  · refine ⟨{ id := s.nextId, name := n, user := p }, ?_, rfl, rfl, ?_⟩
    · simp [getOrCreateIngredient, hf]
    · simp [getOrCreateIngredient, hf]
  · have hmem := List.mem_of_find?_eq_some hf
    have hpred := List.find?_some hf
    simp only [ingredientKeyIs, Bool.and_eq_true, beq_iff_eq] at hpred
    exact ⟨i, by simp [getOrCreateIngredient, hf, hmem], hpred.1, hpred.2,
      by simp [getOrCreateIngredient, hf]⟩

lemma getOrCreateIngredient_new (p : Nat) (n : String) (s : Store) (i : Ingredient)
    (hmem : i ∈ ((getOrCreateIngredient p n s).2).ingredients) (hnew : i ∉ s.ingredients) :
    i.user = p ∧ i.name = n ∧ s.ingredients.find? (ingredientKeyIs p n) = none := by
  rcases hf : s.ingredients.find? (ingredientKeyIs p n) with _ | i0
  · simp only [getOrCreateIngredient, hf, List.mem_append, List.mem_singleton] at hmem
    rcases hmem with hmem | hmem
    · exact absurd hmem hnew
    · subst hmem; exact ⟨rfl, rfl, rfl⟩
  · simp only [getOrCreateIngredient, hf] at hmem
    exact absurd hmem hnew

lemma getOrCreateIngredient_stable (p : Nat) (n : String) (s : Store)
    (h : (s.ingredients.find? (ingredientKeyIs p n)).isSome) :
    (getOrCreateIngredient p n s).2 = s := by
  rcases hf : s.ingredients.find? (ingredientKeyIs p n) with _ | i
  · rw [hf] at h; simp at h
  · simp [getOrCreateIngredient, hf]

lemma getOrCreateIngredient_keys_nodup (p : Nat) (n : String) (s : Store)
    (h : IngredientKeysNodup s) : IngredientKeysNodup ((getOrCreateIngredient p n s).2) := by
  rcases hf : s.ingredients.find? (ingredientKeyIs p n) with _ | i
  · have hall := List.find?_eq_none.mp hf
    simp only [IngredientKeysNodup, getOrCreateIngredient, hf]
    rw [List.pairwise_append]
    refine ⟨h, by simp, ?_⟩
    intro a ha b hb
    simp only [List.mem_singleton] at hb
    subst hb
    have hp := hall a ha
    simp only [ingredientKeyIs, Bool.and_eq_true, beq_iff_eq, not_and] at hp
    by_cases hu : a.user = p
    · exact Or.inr fun hn2 => hp hu hn2
    · exact Or.inl hu
  · simpa only [IngredientKeysNodup, getOrCreateIngredient, hf] using h

lemma reconcileIngredients_recipes (p : Nat) (names : List String) (s : Store) :
    ((reconcileIngredients p names s).2).recipes = s.recipes := by
  induction names generalizing s with
  | nil => rfl
  | cons n rest ih =>
      simp only [reconcileIngredients]
      rw [ih, getOrCreateIngredient_recipes]

lemma reconcileIngredients_tags (p : Nat) (names : List String) (s : Store) :
    ((reconcileIngredients p names s).2).tags = s.tags := by
  induction names generalizing s with
  | nil => rfl
  | cons n rest ih =>
      simp only [reconcileIngredients]
      rw [ih, getOrCreateIngredient_tags]

lemma reconcileIngredients_ingredients_append (p : Nat) (names : List String) (s : Store) :
    ∃ l, ((reconcileIngredients p names s).2).ingredients = s.ingredients ++ l := by
  induction names generalizing s with
  | nil => exact ⟨[], by simp [reconcileIngredients]⟩
  | cons n rest ih =>
      simp only [reconcileIngredients]
      obtain ⟨l1, hl1⟩ := getOrCreateIngredient_ingredients_append p n s
      obtain ⟨l2, hl2⟩ := ih ((getOrCreateIngredient p n s).2)
      exact ⟨l1 ++ l2, by rw [hl2, hl1, List.append_assoc]⟩

lemma reconcileIngredients_resolves (p : Nat) (names : List String) (s : Store) :
    ∀ n ∈ names, ∃ i ∈ ((reconcileIngredients p names s).2).ingredients,
      i.user = p ∧ i.name = n ∧ i.id ∈ (reconcileIngredients p names s).1 := by
  induction names generalizing s with
  | nil => intro n hn; cases hn
  | cons m rest ih =>
      intro n hn
      simp only [reconcileIngredients]
      rcases List.mem_cons.mp hn with rfl | hn
      · obtain ⟨i, himem, hu, hname, hid⟩ := getOrCreateIngredient_resolves p n s
        obtain ⟨l, hl⟩ :=
          reconcileIngredients_ingredients_append p rest ((getOrCreateIngredient p n s).2)
        exact ⟨i, by rw [hl]; exact List.mem_append_left _ himem, hu, hname,
          by rw [hid]; exact List.mem_cons_self _ _⟩
      · obtain ⟨i, himem, hu, hname, hid⟩ := ih ((getOrCreateIngredient p m s).2) n hn
        exact ⟨i, himem, hu, hname, List.mem_cons_of_mem _ hid⟩

lemma reconcileIngredients_new (p : Nat) (names : List String) (s : Store) :
    ∀ i ∈ ((reconcileIngredients p names s).2).ingredients, i ∉ s.ingredients →
      i.user = p ∧ i.name ∈ names ∧ s.ingredients.find? (ingredientKeyIs p i.name) = none := by
  induction names generalizing s with
  | nil => intro i hi hnot; exact absurd hi hnot
  | cons m rest ih =>
      intro i hi hnot
      simp only [reconcileIngredients] at hi
      by_cases hg : i ∈ ((getOrCreateIngredient p m s).2).ingredients
      · obtain ⟨hu, hname, hf⟩ := getOrCreateIngredient_new p m s i hg hnot
        exact ⟨hu, by rw [hname]; exact List.mem_cons_self _ _, by rw [hname]; exact hf⟩
      · obtain ⟨hu, hname, hf⟩ := ih ((getOrCreateIngredient p m s).2) i hi hg
        refine ⟨hu, List.mem_cons_of_mem _ hname, ?_⟩
        rw [List.find?_eq_none] at hf ⊢
        intro x hx
        obtain ⟨l, hl⟩ := getOrCreateIngredient_ingredients_append p m s
        exact hf x (by rw [hl]; exact List.mem_append_left _ hx)

lemma reconcileIngredients_ids (p : Nat) (names : List String) (s : Store) :
    ∀ iid ∈ (reconcileIngredients p names s).1,
      ∃ i ∈ ((reconcileIngredients p names s).2).ingredients,
        i.id = iid ∧ i.user = p ∧ i.name ∈ names := by
  induction names generalizing s with
  | nil => intro iid h; cases h
  | cons m rest ih =>
      intro iid h
      simp only [reconcileIngredients] at h ⊢
      rcases List.mem_cons.mp h with rfl | h
      · obtain ⟨i, himem, hu, hname, hid⟩ := getOrCreateIngredient_resolves p m s
        obtain ⟨l, hl⟩ :=
          reconcileIngredients_ingredients_append p rest ((getOrCreateIngredient p m s).2)
        exact ⟨i, by rw [hl]; exact List.mem_append_left _ himem, hid, hu,
          by rw [hname]; exact List.mem_cons_self _ _⟩
      · obtain ⟨i, himem, hid, hu, hname⟩ := ih ((getOrCreateIngredient p m s).2) iid h
        exact ⟨i, himem, hid, hu, List.mem_cons_of_mem _ hname⟩

lemma reconcileIngredients_stable (p : Nat) (names : List String) (s : Store)
    (h : ∀ n ∈ names, (s.ingredients.find? (ingredientKeyIs p n)).isSome) :
    (reconcileIngredients p names s).2 = s := by
  induction names generalizing s with
  | nil => rfl
  | cons m rest ih =>
      simp only [reconcileIngredients]
      have hst : (getOrCreateIngredient p m s).2 = s :=
        getOrCreateIngredient_stable p m s (h m (List.mem_cons_self _ _))
      rw [hst]
      exact ih s (fun n hn => h n (List.mem_cons_of_mem _ hn))

lemma reconcileIngredients_keys_nodup (p : Nat) (names : List String) (s : Store)
    (h : IngredientKeysNodup s) : IngredientKeysNodup ((reconcileIngredients p names s).2) := by
  induction names generalizing s with
  | nil => exact h
  | cons m rest ih =>
      simp only [reconcileIngredients]
      exact ih _ (getOrCreateIngredient_keys_nodup p m s h)

lemma ingredient_key_unique {l : List Ingredient}
    (h : l.Pairwise (fun a b => a.user ≠ b.user ∨ a.name ≠ b.name))
    {i i' : Ingredient} (hi : i ∈ l) (hi' : i' ∈ l)
    (hu : i.user = i'.user) (hn : i.name = i'.name) : i = i' := by
  induction l with
  | nil => cases hi
  | cons a rest ih =>
      rcases List.pairwise_cons.mp h with ⟨ha, hrest⟩
      rcases List.mem_cons.mp hi with rfl | hir
      · rcases List.mem_cons.mp hi' with rfl | hir'
        · rfl
        · rcases ha i' hir' with h1 | h1
          · exact absurd hu h1
          · exact absurd hn h1
      · rcases List.mem_cons.mp hi' with rfl | hir'
        · rcases ha i hir with h1 | h1
          · exact absurd hu.symm h1
          · exact absurd hn.symm h1
        · exact ih hrest hir hir'

lemma tag_key_unique {l : List Tag}
    (h : l.Pairwise (fun a b => a.user ≠ b.user ∨ a.name ≠ b.name))
    {t t' : Tag} (ht : t ∈ l) (ht' : t' ∈ l)
    (hu : t.user = t'.user) (hn : t.name = t'.name) : t = t' := by
  induction l with
  | nil => cases ht
  | cons a rest ih =>
      rcases List.pairwise_cons.mp h with ⟨ha, hrest⟩
      rcases List.mem_cons.mp ht with rfl | htr
      · rcases List.mem_cons.mp ht' with rfl | htr'
        · rfl
        · rcases ha t' htr' with h1 | h1
          · exact absurd hu h1
          · exact absurd hn h1
      · rcases List.mem_cons.mp ht' with rfl | htr'
        · rcases ha t htr with h1 | h1
          · exact absurd hu.symm h1
          · exact absurd hn.symm h1
        · exact ih hrest htr htr'

lemma find?_recipeOwnedBy_eq_none {p rid : Nat} {s : Store}
    (h : ∀ r ∈ s.recipes, r.id = rid → r.user ≠ p) :
    s.recipes.find? (recipeOwnedBy p rid) = none := by
  rw [List.find?_eq_none]
  intro r hrmem
  simp only [recipeOwnedBy, Bool.and_eq_true, beq_iff_eq, not_and]
  intro hu hid
  exact absurd hu (h r hrmem hid)

lemma find?_tagOwnedBy_eq_none {p tid : Nat} {s : Store}
    (h : ∀ t ∈ s.tags, t.id = tid → t.user ≠ p) :
    s.tags.find? (tagOwnedBy p tid) = none := by
  rw [List.find?_eq_none]
  intro t htmem
  simp only [tagOwnedBy, Bool.and_eq_true, beq_iff_eq, not_and]
  intro hu hid
  exact absurd hu (h t htmem hid)

lemma find?_ingredientOwnedBy_eq_none {p iid : Nat} {s : Store}
    (h : ∀ i ∈ s.ingredients, i.id = iid → i.user ≠ p) :
    s.ingredients.find? (ingredientOwnedBy p iid) = none := by
  rw [List.find?_eq_none]
  intro i himem
  simp only [ingredientOwnedBy, Bool.and_eq_true, beq_iff_eq, not_and]
  intro hu hid
  exact absurd hu (h i himem hid)

lemma createRecipe_ok (p : Nat) (f : RecipeFields) (s : Store)
    {ttl : String} {tm pr : Int} {tnames inames : List String}
    (h1 : f.title = some ttl) (h2 : f.time_minutes = some tm) (h3 : f.price = some pr)
    (h4 : 0 ≤ tm) (h5 : 0 ≤ pr)
    (htags : f.tags = some tnames) (hings : f.ingredients = some inames) :
    createRecipe p f s =
      (none,
        { (reconcileIngredients p inames
             (reconcileTags p tnames { s with nextId := s.nextId + 1 }).2).2 with
          recipes := (reconcileIngredients p inames
             (reconcileTags p tnames { s with nextId := s.nextId + 1 }).2).2.recipes ++
            [{ id := s.nextId, title := ttl, time_minutes := tm, price := pr,
               description := f.description.getD "", link := f.link.getD "",
               user := p,
               tags := (reconcileTags p tnames { s with nextId := s.nextId + 1 }).1.dedup,
               ingredients := (reconcileIngredients p inames
                 (reconcileTags p tnames
                   { s with nextId := s.nextId + 1 }).2).1.dedup }] }) := by
  have hnlt : (decide (tm < 0) || decide (pr < 0)) = false := by
    simp [not_lt.mpr h4, not_lt.mpr h5]
  simp [createRecipe, h1, h2, h3, htags, hings, hnlt]

lemma find?_map_replace {α : Type} (idOf userOf : α → Nat) (p rid : Nat) (r3 : α)
    (h3u : userOf r3 = p) (h3id : idOf r3 = rid) :
    ∀ l : List α, (l.map idOf).Nodup →
      ∀ r, l.find? (fun x => userOf x == p && idOf x == rid) = some r →
        (l.map (fun x => if idOf x == rid then r3 else x)).find?
          (fun x => userOf x == p && idOf x == rid) = some r3 := by
  intro l
  induction l with
  | nil => intro _ r h; cases h
  | cons a tail ih =>
      intro hnodup r hfind
      rw [List.map_cons, List.nodup_cons] at hnodup
      rw [List.find?_cons] at hfind
      rw [List.map_cons, List.find?_cons]
      rcases hpa : (userOf a == p && idOf a == rid) with _ | _
      · rw [hpa] at hfind
        have hrid : idOf r = rid := by
          have hps := List.find?_some hfind
          simp only [Bool.and_eq_true, beq_iff_eq] at hps
          exact hps.2
        have hrmem := List.mem_of_find?_eq_some hfind
        have haid : idOf a ≠ rid := by
          intro h
          exact hnodup.1 (by rw [h, ← hrid]; exact List.mem_map_of_mem idOf hrmem)
        have hbeq : (idOf a == rid) = false := by simp [haid]
        have hif : (if (idOf a == rid) = true then r3 else a) = a := by
          rw [hbeq]
          simp
        rw [hif, hpa]
        exact ih hnodup.2 r hfind
      · have haid : idOf a = rid := by
          simp only [Bool.and_eq_true, beq_iff_eq] at hpa
          exact hpa.2
        simp [haid, h3u, h3id]

lemma found_recipe_props {p rid : Nat} {s : Store} {r : Recipe}
    (hfind : s.recipes.find? (recipeOwnedBy p rid) = some r) :
    r.user = p ∧ r.id = rid := by
  have hps := List.find?_some hfind
  simp only [recipeOwnedBy, Bool.and_eq_true, beq_iff_eq] at hps
  exact hps

lemma found_tag_props {p tid : Nat} {s : Store} {t : Tag}
    (hfind : s.tags.find? (tagOwnedBy p tid) = some t) :
    t.user = p ∧ t.id = tid := by
  have hps := List.find?_some hfind
  simp only [tagOwnedBy, Bool.and_eq_true, beq_iff_eq] at hps
  exact hps

lemma found_ingredient_props {p iid : Nat} {s : Store} {i : Ingredient}
    (hfind : s.ingredients.find? (ingredientOwnedBy p iid) = some i) :
    i.user = p ∧ i.id = iid := by
  have hps := List.find?_some hfind
  simp only [ingredientOwnedBy, Bool.and_eq_true, beq_iff_eq] at hps
  exact hps

lemma applyScalars_frame (mode : UpdateMode) (f : RecipeFields) (r : Recipe) :
    (applyScalars mode f r).id = r.id ∧ (applyScalars mode f r).user = r.user ∧
    (applyScalars mode f r).tags = r.tags ∧
    (applyScalars mode f r).ingredients = r.ingredients := by
  cases mode <;> exact ⟨rfl, rfl, rfl, rfl⟩

lemma applyAssoc_recipes (p : Nat) (f : RecipeFields) (r1 : Recipe) (s : Store) :
    (applyAssoc p f r1 s).2.recipes = s.recipes := by
  unfold applyAssoc
  rcases f.tags with _ | tn <;> rcases f.ingredients with _ | inn <;>
    simp [reconcileTags_recipes, reconcileIngredients_recipes]

lemma applyAssoc_scalars (p : Nat) (f : RecipeFields) (r1 : Recipe) (s : Store) :
    (applyAssoc p f r1 s).1.id = r1.id ∧ (applyAssoc p f r1 s).1.user = r1.user ∧
    (applyAssoc p f r1 s).1.title = r1.title ∧
    (applyAssoc p f r1 s).1.time_minutes = r1.time_minutes ∧
    (applyAssoc p f r1 s).1.price = r1.price ∧
    (applyAssoc p f r1 s).1.description = r1.description ∧
    (applyAssoc p f r1 s).1.link = r1.link := by
  unfold applyAssoc
  rcases f.tags with _ | tn <;> rcases f.ingredients with _ | inn <;>
    exact ⟨rfl, rfl, rfl, rfl, rfl, rfl, rfl⟩

lemma applyAssoc_tags_some (p : Nat) (f : RecipeFields) (r1 : Recipe) (s : Store)
    {names : List String} (h : f.tags = some names) :
    (applyAssoc p f r1 s).1.tags = (reconcileTags p names s).1.dedup ∧
    (applyAssoc p f r1 s).2.tags = ((reconcileTags p names s).2).tags := by
  unfold applyAssoc
  rcases hi : f.ingredients with _ | inn <;>
    simp [h, hi, reconcileIngredients_tags]

lemma applyAssoc_tags_none (p : Nat) (f : RecipeFields) (r1 : Recipe) (s : Store)
    (h : f.tags = none) :
    (applyAssoc p f r1 s).1.tags = r1.tags ∧
    (applyAssoc p f r1 s).2.tags = s.tags := by
  unfold applyAssoc
  rcases hi : f.ingredients with _ | inn <;>
    simp [h, hi, reconcileIngredients_tags]

lemma applyAssoc_ings_some (p : Nat) (f : RecipeFields) (r1 : Recipe) (s : Store)
    {names : List String} (h : f.ingredients = some names) :
    ∃ st : Store, st.ingredients = s.ingredients ∧
      (applyAssoc p f r1 s).1.ingredients = (reconcileIngredients p names st).1.dedup ∧
      (applyAssoc p f r1 s).2.ingredients =
        ((reconcileIngredients p names st).2).ingredients := by
  unfold applyAssoc
  rcases ht : f.tags with _ | tn
  · exact ⟨s, rfl, by simp [h, ht], by simp [h, ht]⟩
  · exact ⟨(reconcileTags p tn s).2, reconcileTags_ingredients p tn s,
      by simp [h, ht], by simp [h, ht]⟩

lemma applyAssoc_ings_none (p : Nat) (f : RecipeFields) (r1 : Recipe) (s : Store)
    (h : f.ingredients = none) :
    (applyAssoc p f r1 s).1.ingredients = r1.ingredients ∧
    (applyAssoc p f r1 s).2.ingredients = s.ingredients := by
  unfold applyAssoc
  rcases ht : f.tags with _ | tn <;>
    simp [h, ht, reconcileTags_ingredients]

lemma updateRecipe_success (p rid : Nat) (f : RecipeFields) (mode : UpdateMode)
    (s : Store) (r : Recipe)
    (hfind : s.recipes.find? (recipeOwnedBy p rid) = some r)
    (hnodup : RecipeIdsNodup s)
    (hput : mode = UpdateMode.put →
      f.title.isSome ∧ f.time_minutes.isSome ∧ f.price.isSome)
    (htm : 0 ≤ f.time_minutes.getD 0) (hpr : 0 ≤ f.price.getD 0) :
    (updateRecipe p rid f mode s).1 = none ∧
    (updateRecipe p rid f mode s).2.tags = (applyAssoc p f (applyScalars mode f r) s).2.tags ∧
    (updateRecipe p rid f mode s).2.ingredients
      = (applyAssoc p f (applyScalars mode f r) s).2.ingredients ∧
    (updateRecipe p rid f mode s).2.recipes.find? (recipeOwnedBy p rid)
      = some (applyAssoc p f (applyScalars mode f r) s).1 := by
  have hnum : (decide (f.time_minutes.getD 0 < 0) || decide (f.price.getD 0 < 0)) = false := by
    simp [not_lt.mpr htm, not_lt.mpr hpr]
  have heq : updateRecipe p rid f mode s =
      (none,
       { (applyAssoc p f (applyScalars mode f r) s).2 with
         recipes := (applyAssoc p f (applyScalars mode f r) s).2.recipes.map
           (fun x => if x.id == rid then (applyAssoc p f (applyScalars mode f r) s).1
                     else x) }) := by
    cases mode with
    | patch => simp [updateRecipe, hfind, hnum]
    | put =>
        obtain ⟨ht1, ht2, ht3⟩ := hput rfl
        simp [updateRecipe, hfind, hnum, Option.isNone_iff_eq_none] at ht1 ht2 ht3 ⊢
        simp [Option.isSome_iff_exists] at ht1 ht2 ht3
        obtain ⟨ttl, httl⟩ := ht1
        obtain ⟨tmv, htmv⟩ := ht2
        obtain ⟨prv, hprv⟩ := ht3
        simp [httl, htmv, hprv]
  have hprops := found_recipe_props hfind
  have hs := applyScalars_frame mode f r
  have ha := applyAssoc_scalars p f (applyScalars mode f r) s
  refine ⟨by rw [heq], by rw [heq], by rw [heq], ?_⟩
  rw [heq]
  show ((applyAssoc p f (applyScalars mode f r) s).2.recipes.map
      (fun x => if x.id == rid then (applyAssoc p f (applyScalars mode f r) s).1 else x)).find?
      (recipeOwnedBy p rid) = _
  rw [applyAssoc_recipes]
  exact find?_map_replace Recipe.id Recipe.user p rid _
    (by rw [ha.2.1, hs.2.1]; exact hprops.1)
    (by rw [ha.1, hs.1]; exact hprops.2)
    s.recipes hnodup r hfind

lemma updateTag_success (p tid : Nat) (ft : TagFields) (s : Store) (t : Tag)
    (hfind : s.tags.find? (tagOwnedBy p tid) = some t)
    (hnodup : TagIdsNodup s) :
    (updateTag p tid ft s).1 = none ∧
    (updateTag p tid ft s).2.tags.find? (tagOwnedBy p tid)
      = some { t with name := ft.name.getD t.name } := by
  have hprops := found_tag_props hfind
  have heq : updateTag p tid ft s =
      (none, { s with tags := (List.map
        (fun x => if x.id == tid then { t with name := ft.name.getD t.name } else x)
        s.tags) }) := by
    simp [updateTag, hfind]
  refine ⟨by rw [heq], ?_⟩
  rw [heq]
  exact find?_map_replace Tag.id Tag.user p tid
    { t with name := ft.name.getD t.name } hprops.1 hprops.2 s.tags hnodup t hfind

lemma updateIngredient_success (p iid : Nat) (fi : IngredientFields) (s : Store)
    (i : Ingredient)
    (hfind : s.ingredients.find? (ingredientOwnedBy p iid) = some i)
    (hnodup : IngredientIdsNodup s) :
    (updateIngredient p iid fi s).1 = none ∧
    (updateIngredient p iid fi s).2.ingredients.find? (ingredientOwnedBy p iid)
      = some { i with name := fi.name.getD i.name } := by
  have hprops := found_ingredient_props hfind
  have heq : updateIngredient p iid fi s =
      (none, { s with ingredients := (List.map
        (fun x => if x.id == iid then { i with name := fi.name.getD i.name } else x)
        s.ingredients) }) := by
    simp [updateIngredient, hfind]
  refine ⟨by rw [heq], ?_⟩
  rw [heq]
  exact find?_map_replace Ingredient.id Ingredient.user p iid
    { i with name := fi.name.getD i.name } hprops.1 hprops.2
    s.ingredients hnodup i hfind

lemma find?_isSome_of_mem {α : Type} {l : List α} {q : α → Bool} {x : α}
    (hx : x ∈ l) (hq : q x = true) : (l.find? q).isSome := by
  rcases h : l.find? q with _ | y
  · rw [List.find?_eq_none] at h
    exact absurd hq (h x hx)
  · rfl

lemma createRecipe_tags (p : Nat) (f : RecipeFields) (s : Store)
    {ttl : String} {tm pr : Int} {tnames inames : List String}
    (h1 : f.title = some ttl) (h2 : f.time_minutes = some tm) (h3 : f.price = some pr)
    (h4 : 0 ≤ tm) (h5 : 0 ≤ pr)
    (htags : f.tags = some tnames) (hings : f.ingredients = some inames) :
    (createRecipe p f s).2.tags =
      ((reconcileTags p tnames { s with nextId := s.nextId + 1 }).2).tags := by
  rw [createRecipe_ok p f s h1 h2 h3 h4 h5 htags hings]
  exact reconcileIngredients_tags p inames _

lemma createRecipe_ings (p : Nat) (f : RecipeFields) (s : Store)
    {ttl : String} {tm pr : Int} {tnames inames : List String}
    (h1 : f.title = some ttl) (h2 : f.time_minutes = some tm) (h3 : f.price = some pr)
    (h4 : 0 ≤ tm) (h5 : 0 ≤ pr)
    (htags : f.tags = some tnames) (hings : f.ingredients = some inames) :
    (createRecipe p f s).2.ingredients =
      ((reconcileIngredients p inames
        (reconcileTags p tnames { s with nextId := s.nextId + 1 }).2).2).ingredients := by
  rw [createRecipe_ok p f s h1 h2 h3 h4 h5 htags hings]

lemma createRecipe_recipes_mem (p : Nat) (f : RecipeFields) (s : Store)
    {ttl : String} {tm pr : Int} {tnames inames : List String}
    (h1 : f.title = some ttl) (h2 : f.time_minutes = some tm) (h3 : f.price = some pr)
    (h4 : 0 ≤ tm) (h5 : 0 ≤ pr)
    (htags : f.tags = some tnames) (hings : f.ingredients = some inames) :
    ∀ r ∈ (createRecipe p f s).2.recipes,
      r ∈ s.recipes ∨ (r.tags.Nodup ∧ r.ingredients.Nodup ∧ r.id = s.nextId ∧ r.user = p) := by
  rw [createRecipe_ok p f s h1 h2 h3 h4 h5 htags hings]
  intro r hr
  have hr' : r ∈ (reconcileIngredients p inames
      (reconcileTags p tnames { s with nextId := s.nextId + 1 }).2).2.recipes ++
      [{ id := s.nextId, title := ttl, time_minutes := tm, price := pr,
         description := f.description.getD "", link := f.link.getD "",
         user := p,
         tags := (reconcileTags p tnames { s with nextId := s.nextId + 1 }).1.dedup,
         ingredients := (reconcileIngredients p inames
           (reconcileTags p tnames { s with nextId := s.nextId + 1 }).2).1.dedup }] := hr
  rw [reconcileIngredients_recipes, reconcileTags_recipes] at hr'
  rcases List.mem_append.mp hr' with hmem | hmem
  · exact Or.inl hmem
  · rw [List.mem_singleton] at hmem
    subst hmem
    exact Or.inr ⟨List.nodup_dedup _, List.nodup_dedup _, rfl, rfl⟩

lemma createRecipe_stable_assoc (p : Nat) (f : RecipeFields) (s : Store)
    {ttl : String} {tm pr : Int} {tnames inames : List String}
    (h1 : f.title = some ttl) (h2 : f.time_minutes = some tm) (h3 : f.price = some pr)
    (h4 : 0 ≤ tm) (h5 : 0 ≤ pr)
    (htags : f.tags = some tnames) (hings : f.ingredients = some inames)
    (hall_t : ∀ n ∈ tnames, (s.tags.find? (tagKeyIs p n)).isSome)
    (hall_i : ∀ n ∈ inames, (s.ingredients.find? (ingredientKeyIs p n)).isSome) :
    (createRecipe p f s).2.tags = s.tags ∧
    (createRecipe p f s).2.ingredients = s.ingredients := by
  rw [createRecipe_ok p f s h1 h2 h3 h4 h5 htags hings]
  have ht := reconcileTags_stable p tnames { s with nextId := s.nextId + 1 }
    (fun n hn => hall_t n hn)
  rw [ht]
  have hi := reconcileIngredients_stable p inames { s with nextId := s.nextId + 1 }
    (fun n hn => hall_i n hn)
  rw [hi]
  exact ⟨rfl, rfl⟩

lemma createRecipe_keys_nodup (p : Nat) (f : RecipeFields) (s : Store)
    {ttl : String} {tm pr : Int} {tnames inames : List String}
    (h1 : f.title = some ttl) (h2 : f.time_minutes = some tm) (h3 : f.price = some pr)
    (h4 : 0 ≤ tm) (h5 : 0 ≤ pr)
    (htags : f.tags = some tnames) (hings : f.ingredients = some inames)
    (htk : TagKeysNodup s) (hik : IngredientKeysNodup s) :
    TagKeysNodup (createRecipe p f s).2 ∧ IngredientKeysNodup (createRecipe p f s).2 := by
  constructor
  · unfold TagKeysNodup
    rw [createRecipe_tags p f s h1 h2 h3 h4 h5 htags hings]
    exact reconcileTags_keys_nodup p tnames _ htk
  · unfold IngredientKeysNodup
    rw [createRecipe_ings p f s h1 h2 h3 h4 h5 htags hings]
    have hmid : IngredientKeysNodup
        (reconcileTags p tnames { s with nextId := s.nextId + 1 }).2 := by
      unfold IngredientKeysNodup
      rw [reconcileTags_ingredients]
      exact hik
    exact reconcileIngredients_keys_nodup p inames _ hmid

/-- C5: on any successful recipe update, a supplied `tags` or `ingredients`
key fully replaces that association set with the reconciled set — every
supplied name ends up associated through an owned entity of that name, and
every remaining association points at an owned entity named in the new
list, so previously associated entities not in the new list are
dissociated; `some []` clears the association set to empty; and an absent
key leaves the association set exactly as it was. -/
theorem update_replaces_association_set
    (p rid : Nat) (f : RecipeFields) (mode : UpdateMode) (s : Store) (r : Recipe)
    (hfind : s.recipes.find? (recipeOwnedBy p rid) = some r)
    (hnodup : RecipeIdsNodup s)
    (hput : mode = UpdateMode.put →
      f.title.isSome ∧ f.time_minutes.isSome ∧ f.price.isSome)
    (htm : 0 ≤ f.time_minutes.getD 0) (hpr : 0 ≤ f.price.getD 0) :
    (updateRecipe p rid f mode s).1 = none ∧
    ∃ r', (updateRecipe p rid f mode s).2.recipes.find? (recipeOwnedBy p rid) = some r' ∧
      (∀ names, f.tags = some names →
        (∀ n ∈ names, ∃ t ∈ (updateRecipe p rid f mode s).2.tags,
          t.user = p ∧ t.name = n ∧ t.id ∈ r'.tags) ∧
        (∀ tid ∈ r'.tags, ∃ t ∈ (updateRecipe p rid f mode s).2.tags,
          t.id = tid ∧ t.user = p ∧ t.name ∈ names)) ∧
      (f.tags = some [] → r'.tags = []) ∧
      (f.tags = none → r'.tags = r.tags) ∧
      (∀ names, f.ingredients = some names →
        (∀ n ∈ names, ∃ i ∈ (updateRecipe p rid f mode s).2.ingredients,
          i.user = p ∧ i.name = n ∧ i.id ∈ r'.ingredients) ∧
        (∀ iid ∈ r'.ingredients, ∃ i ∈ (updateRecipe p rid f mode s).2.ingredients,
          i.id = iid ∧ i.user = p ∧ i.name ∈ names)) ∧
      (f.ingredients = some [] → r'.ingredients = []) ∧
      (f.ingredients = none → r'.ingredients = r.ingredients) := by
  obtain ⟨h0, htags_eq, hings_eq, hfind'⟩ :=
    updateRecipe_success p rid f mode s r hfind hnodup hput htm hpr
  refine ⟨h0, _, hfind', ?_, ?_, ?_, ?_, ?_, ?_⟩
  · intro names hnames
    have hat := applyAssoc_tags_some p f (applyScalars mode f r) s hnames
    constructor
    · intro n hn
      obtain ⟨t, htm2, hu, hname, hid⟩ := reconcileTags_resolves p names s n hn
      refine ⟨t, ?_, hu, hname, ?_⟩
      · rw [htags_eq, hat.2]; exact htm2
      · rw [hat.1, List.mem_dedup]; exact hid
    · intro tid hid
      rw [hat.1, List.mem_dedup] at hid
      obtain ⟨t, htm2, hteq, hu, hname⟩ := reconcileTags_ids p names s tid hid
      exact ⟨t, by rw [htags_eq, hat.2]; exact htm2, hteq, hu, hname⟩
  · intro hempty
    have hat := applyAssoc_tags_some p f (applyScalars mode f r) s hempty
    rw [hat.1]
    rfl
  · intro hnone
    have hat := applyAssoc_tags_none p f (applyScalars mode f r) s hnone
    rw [hat.1]
    exact (applyScalars_frame mode f r).2.2.1
  · intro names hnames
    obtain ⟨st, hstings, h1i, h2i⟩ :=
      applyAssoc_ings_some p f (applyScalars mode f r) s hnames
    constructor
    · intro n hn
      obtain ⟨i, him, hu, hname, hid⟩ := reconcileIngredients_resolves p names st n hn
      refine ⟨i, ?_, hu, hname, ?_⟩
      · rw [hings_eq, h2i]; exact him
      · rw [h1i, List.mem_dedup]; exact hid
    · intro iid hid
      rw [h1i, List.mem_dedup] at hid
      obtain ⟨i, him, hieq, hu, hname⟩ := reconcileIngredients_ids p names st iid hid
      exact ⟨i, by rw [hings_eq, h2i]; exact him, hieq, hu, hname⟩
  · intro hempty
    obtain ⟨st, hstings, h1i, h2i⟩ :=
      applyAssoc_ings_some p f (applyScalars mode f r) s hempty
    rw [h1i]
    rfl
  · intro hnone
    have hai := applyAssoc_ings_none p f (applyScalars mode f r) s hnone
    rw [hai.1]
    exact (applyScalars_frame mode f r).2.2.2

/-- C6: the owner of an entity is immutable after creation — an update whose
payload attempts to set owner/user still succeeds, the owner field is
silently ignored rather than rejected, and the entity's owner after the
update equals its owner before, for recipes, tags and ingredients alike. -/
theorem update_ignores_owner_field
    (p rid tid iid q : Nat) (f : RecipeFields) (mode : UpdateMode) (s : Store)
    (r : Recipe) (t : Tag) (i : Ingredient) (ft : TagFields) (fi : IngredientFields)
    (hq : f.user = some q) (hqt : ft.user = some q) (hqi : fi.user = some q)
    (hfind : s.recipes.find? (recipeOwnedBy p rid) = some r)
    (hfindt : s.tags.find? (tagOwnedBy p tid) = some t)
    (hfindi : s.ingredients.find? (ingredientOwnedBy p iid) = some i)
    (hnodup : RecipeIdsNodup s) (hnodupT : TagIdsNodup s)
    (hnodupI : IngredientIdsNodup s)
    (hput : mode = UpdateMode.put →
      f.title.isSome ∧ f.time_minutes.isSome ∧ f.price.isSome)
    (htm : 0 ≤ f.time_minutes.getD 0) (hpr : 0 ≤ f.price.getD 0) :
    (updateRecipe p rid f mode s).1 = none ∧
    (∃ r', (updateRecipe p rid f mode s).2.recipes.find? (recipeOwnedBy p rid) = some r' ∧
      r'.user = r.user) ∧
    (updateTag p tid ft s).1 = none ∧
    (∃ t', (updateTag p tid ft s).2.tags.find? (tagOwnedBy p tid) = some t' ∧
      t'.user = t.user) ∧
    (updateIngredient p iid fi s).1 = none ∧
    (∃ i', (updateIngredient p iid fi s).2.ingredients.find? (ingredientOwnedBy p iid)
        = some i' ∧ i'.user = i.user) := by
  obtain ⟨h0, _, _, hfind'⟩ :=
    updateRecipe_success p rid f mode s r hfind hnodup hput htm hpr
  obtain ⟨h0t, hfindt'⟩ := updateTag_success p tid ft s t hfindt hnodupT
  obtain ⟨h0i, hfindi'⟩ := updateIngredient_success p iid fi s i hfindi hnodupI
  have ha := applyAssoc_scalars p f (applyScalars mode f r) s
  have hs := applyScalars_frame mode f r
  exact ⟨h0, ⟨_, hfind', ha.2.1.trans hs.2.1⟩, h0t, ⟨_, hfindt', rfl⟩,
    h0i, ⟨_, hfindi', rfl⟩⟩

/-- C7: partial update merges only the supplied fields — each scalar field
takes the payload value when supplied and keeps its previous value when
absent, identity and owner are unchanged, and absent tags/ingredients keys
leave the association sets untouched. -/
theorem partial_update_merges_only_supplied_fields
    (p rid : Nat) (f : RecipeFields) (s : Store) (r : Recipe)
    (hfind : s.recipes.find? (recipeOwnedBy p rid) = some r)
    (hnodup : RecipeIdsNodup s)
    (htm : 0 ≤ f.time_minutes.getD 0) (hpr : 0 ≤ f.price.getD 0) :
    (updateRecipe p rid f .patch s).1 = none ∧
    ∃ r', (updateRecipe p rid f .patch s).2.recipes.find? (recipeOwnedBy p rid)
        = some r' ∧
      r'.id = r.id ∧ r'.user = r.user ∧
      r'.title = f.title.getD r.title ∧
      r'.time_minutes = f.time_minutes.getD r.time_minutes ∧
      r'.price = f.price.getD r.price ∧
      r'.description = f.description.getD r.description ∧
      r'.link = f.link.getD r.link ∧
      (f.tags = none → r'.tags = r.tags) ∧
      (f.ingredients = none → r'.ingredients = r.ingredients) := by
  obtain ⟨h0, _, _, hfind'⟩ := updateRecipe_success p rid f .patch s r hfind hnodup
    (by intro h; cases h) htm hpr
  have ha := applyAssoc_scalars p f (applyScalars .patch f r) s
  refine ⟨h0, _, hfind', ha.1.trans rfl, ha.2.1.trans rfl, ha.2.2.1.trans rfl,
    ha.2.2.2.1.trans rfl, ha.2.2.2.2.1.trans rfl, ha.2.2.2.2.2.1.trans rfl,
    ha.2.2.2.2.2.2.trans rfl, ?_, ?_⟩
  · intro hnone
    have hat := applyAssoc_tags_none p f (applyScalars .patch f r) s hnone
    exact hat.1.trans rfl
  · intro hnone
    have hai := applyAssoc_ings_none p f (applyScalars .patch f r) s hnone
    exact hai.1.trans rfl

/-- C8: full update requires all required fields and replaces every field —
a PUT omitting title, time_minutes or price fails with ValidationError and
leaves the store untouched; a PUT supplying every field succeeds and the
updated recipe carries exactly the supplied values for every field, with
identity and owner excepted (unchanged). -/
theorem full_update_requires_and_replaces_all_fields
    (p rid : Nat) (f : RecipeFields) (s : Store) (r : Recipe)
    (hfind : s.recipes.find? (recipeOwnedBy p rid) = some r)
    (hnodup : RecipeIdsNodup s) :
    ((f.title = none ∨ f.time_minutes = none ∨ f.price = none) →
      updateRecipe p rid f .put s = (some .validationError, s)) ∧
    (∀ ttl tm pr dsc lnk, f.title = some ttl → f.time_minutes = some tm →
      f.price = some pr → f.description = some dsc → f.link = some lnk →
      0 ≤ tm → 0 ≤ pr →
      (updateRecipe p rid f .put s).1 = none ∧
      ∃ r', (updateRecipe p rid f .put s).2.recipes.find? (recipeOwnedBy p rid)
          = some r' ∧
        r'.id = r.id ∧ r'.user = r.user ∧ r'.title = ttl ∧ r'.time_minutes = tm ∧
        r'.price = pr ∧ r'.description = dsc ∧ r'.link = lnk) := by
  constructor
  · intro hmiss
    have hmb : (f.title.isNone || f.time_minutes.isNone || f.price.isNone) = true := by
      rcases hmiss with h | h | h <;> simp [h]
    simp [updateRecipe, hfind, hmb]
  · intro ttl tm pr dsc lnk h1 h2 h3 hd hl h4 h5
    have htm : 0 ≤ f.time_minutes.getD 0 := by rw [h2]; exact h4
    have hpr : 0 ≤ f.price.getD 0 := by rw [h3]; exact h5
    obtain ⟨h0, _, _, hfind'⟩ := updateRecipe_success p rid f .put s r hfind hnodup
      (fun _ => ⟨by rw [h1]; rfl, by rw [h2]; rfl, by rw [h3]; rfl⟩) htm hpr
    have ha := applyAssoc_scalars p f (applyScalars .put f r) s
    refine ⟨h0, _, hfind', ha.1.trans rfl, ha.2.1.trans rfl, ?_, ?_, ?_, ?_, ?_⟩
    · rw [ha.2.2.1]
      show f.title.getD r.title = ttl
      rw [h1, Option.getD_some]
    · rw [ha.2.2.2.1]
      show f.time_minutes.getD r.time_minutes = tm
      rw [h2, Option.getD_some]
    · rw [ha.2.2.2.2.1]
      show f.price.getD r.price = pr
      rw [h3, Option.getD_some]
    · rw [ha.2.2.2.2.2.1]
      show f.description.getD "" = dsc
      rw [hd, Option.getD_some]
    · rw [ha.2.2.2.2.2.2]
      show f.link.getD "" = lnk
      rw [hl, Option.getD_some]

/-- C5 witness: patching the owned recipe with `tags=[{name:"dinner"}]` and
`ingredients=[]` succeeds, associates a user-1 tag named "dinner", and
clears the ingredient associations. -/
theorem update_replaces_association_set_witness :
    (updateRecipe 1 5 assocFields .patch ownStore).1 = none ∧
    ∃ r', (updateRecipe 1 5 assocFields .patch ownStore).2.recipes.find?
        (recipeOwnedBy 1 5) = some r' ∧
      (∃ t ∈ (updateRecipe 1 5 assocFields .patch ownStore).2.tags,
        t.user = 1 ∧ t.name = "dinner" ∧ t.id ∈ r'.tags) ∧
      r'.ingredients = [] := by
  obtain ⟨h0, r', hfind', htag, hclear, hnone, hing, hingclear, hingnone⟩ :=
    update_replaces_association_set 1 5 assocFields .patch ownStore ownRecipe rfl
      (by decide) (by intro h; cases h) (by decide) (by decide)
  have ht := (htag ["dinner"] rfl).1 "dinner" (List.mem_singleton.mpr rfl)
  exact ⟨h0, r', hfind', ht, hingclear rfl⟩

/-- C6 witness: a patch whose payload sets `user: 2` on user 1's recipe,
tag and ingredient still succeeds and leaves every owner equal to 1. -/
theorem update_ignores_owner_field_witness :
    (updateRecipe 1 5 ownerFields .patch ownStore).1 = none ∧
    (∃ r', (updateRecipe 1 5 ownerFields .patch ownStore).2.recipes.find?
        (recipeOwnedBy 1 5) = some r' ∧ r'.user = 1) ∧
    (updateTag 1 6 { user := some 2 } ownStore).1 = none ∧
    (∃ t', (updateTag 1 6 { user := some 2 } ownStore).2.tags.find? (tagOwnedBy 1 6)
        = some t' ∧ t'.user = 1) ∧
    (updateIngredient 1 7 { user := some 2 } ownStore).1 = none ∧
    (∃ i', (updateIngredient 1 7 { user := some 2 } ownStore).2.ingredients.find?
        (ingredientOwnedBy 1 7) = some i' ∧ i'.user = 1) :=
  update_ignores_owner_field 1 5 6 7 2 ownerFields .patch ownStore ownRecipe
    { id := 6, name := "breakfast", user := 1 } { id := 7, name := "Salt", user := 1 }
    { user := some 2 } { user := some 2 } rfl rfl rfl rfl rfl rfl
    (by decide) (by decide) (by decide) (by intro h; cases h) (by decide) (by decide)

/-- C7 witness: patching only the title of user 1's recipe leaves the link,
price, time, description, owner and associations unchanged while the title
takes the new value. -/
theorem partial_update_merges_only_supplied_fields_witness :
    (updateRecipe 1 5 patchFields .patch ownStore).1 = none ∧
    ∃ r', (updateRecipe 1 5 patchFields .patch ownStore).2.recipes.find?
        (recipeOwnedBy 1 5) = some r' ∧
      r'.id = 5 ∧ r'.user = 1 ∧ r'.title = "new recipe title" ∧
      r'.time_minutes = 22 ∧ r'.price = 525 ∧
      r'.description = "Sample description" ∧
      r'.link = "https://example.com/recipe.pdf" ∧
      (patchFields.tags = none → r'.tags = [6]) ∧
      (patchFields.ingredients = none → r'.ingredients = [7]) :=
  partial_update_merges_only_supplied_fields 1 5 patchFields ownStore ownRecipe
    rfl (by decide) (by decide) (by decide)

/-- C8 witness: a PUT omitting the title fails with ValidationError and
leaves the store untouched; a PUT supplying every field succeeds and the
recipe carries exactly the supplied values, with id and owner unchanged. -/
theorem full_update_requires_and_replaces_all_fields_witness :
    updateRecipe 1 5 missingFields .put ownStore = (some .validationError, ownStore) ∧
    (updateRecipe 1 5 fullFields .put ownStore).1 = none ∧
    ∃ r', (updateRecipe 1 5 fullFields .put ownStore).2.recipes.find?
        (recipeOwnedBy 1 5) = some r' ∧
      r'.id = 5 ∧ r'.user = 1 ∧ r'.title = "New Sample recipe title" ∧
      r'.time_minutes = 30 ∧ r'.price = 625 ∧
      r'.description = "New Sample description" ∧
      r'.link = "http//example.com/new_recipe.pdf" :=
  ⟨(full_update_requires_and_replaces_all_fields 1 5 missingFields ownStore ownRecipe
      rfl (by decide)).1 (Or.inl rfl),
   (full_update_requires_and_replaces_all_fields 1 5 fullFields ownStore ownRecipe
      rfl (by decide)).2
     "New Sample recipe title" 30 625 "New Sample description"
     "http//example.com/new_recipe.pdf" rfl rfl rfl rfl rfl (by decide) (by decide)⟩

/-- C3: every recipe write - create or update - carrying tag/ingredient
descriptor lists resolves each descriptor name under the recipe's owner by
get-or-create: the write succeeds; every supplied name ends up backed by an
owned entity of that name associated to the written recipe; all
pre-existing entities survive (found ones are reused, not duplicated); an
entity is newly created only for a name whose (owner, name) lookup failed;
and every association of the written recipe points at an owned entity named
in the supplied list. -/
theorem recipe_write_reconciles_descriptors
    (p rid : Nat) (f : RecipeFields) (s s2 : Store) (r0 : Recipe) (mode : UpdateMode)
    (ttl : String) (tm pr : Int) (tnames inames : List String)
    (h1 : f.title = some ttl) (h2 : f.time_minutes = some tm) (h3 : f.price = some pr)
    (h4 : 0 ≤ tm) (h5 : 0 ≤ pr)
    (htags : f.tags = some tnames) (hings : f.ingredients = some inames)
    (hfind : s2.recipes.find? (recipeOwnedBy p rid) = some r0)
    (hnodup : RecipeIdsNodup s2) :
    ((createRecipe p f s).1 = none ∧
     ∃ r ∈ (createRecipe p f s).2.recipes, r.id = s.nextId ∧ r.user = p ∧
       (∀ n ∈ tnames, ∃ t ∈ (createRecipe p f s).2.tags,
         t.user = p ∧ t.name = n ∧ t.id ∈ r.tags) ∧
       (∀ t ∈ s.tags, t ∈ (createRecipe p f s).2.tags) ∧
       (∀ t ∈ (createRecipe p f s).2.tags, t ∉ s.tags →
         t.user = p ∧ t.name ∈ tnames ∧ s.tags.find? (tagKeyIs p t.name) = none) ∧
       (∀ tid ∈ r.tags, ∃ t ∈ (createRecipe p f s).2.tags,
         t.id = tid ∧ t.user = p ∧ t.name ∈ tnames) ∧
       (∀ n ∈ inames, ∃ i ∈ (createRecipe p f s).2.ingredients,
         i.user = p ∧ i.name = n ∧ i.id ∈ r.ingredients) ∧
       (∀ i ∈ s.ingredients, i ∈ (createRecipe p f s).2.ingredients) ∧
       (∀ i ∈ (createRecipe p f s).2.ingredients, i ∉ s.ingredients →
         i.user = p ∧ i.name ∈ inames ∧
         s.ingredients.find? (ingredientKeyIs p i.name) = none) ∧
       (∀ iid ∈ r.ingredients, ∃ i ∈ (createRecipe p f s).2.ingredients,
         i.id = iid ∧ i.user = p ∧ i.name ∈ inames)) ∧
    ((updateRecipe p rid f mode s2).1 = none ∧
     ∃ r', (updateRecipe p rid f mode s2).2.recipes.find? (recipeOwnedBy p rid)
         = some r' ∧
       (∀ n ∈ tnames, ∃ t ∈ (updateRecipe p rid f mode s2).2.tags,
         t.user = p ∧ t.name = n ∧ t.id ∈ r'.tags) ∧
       (∀ t ∈ s2.tags, t ∈ (updateRecipe p rid f mode s2).2.tags) ∧
       (∀ t ∈ (updateRecipe p rid f mode s2).2.tags, t ∉ s2.tags →
         t.user = p ∧ t.name ∈ tnames ∧ s2.tags.find? (tagKeyIs p t.name) = none) ∧
       (∀ tid ∈ r'.tags, ∃ t ∈ (updateRecipe p rid f mode s2).2.tags,
         t.id = tid ∧ t.user = p ∧ t.name ∈ tnames) ∧
       (∀ n ∈ inames, ∃ i ∈ (updateRecipe p rid f mode s2).2.ingredients,
         i.user = p ∧ i.name = n ∧ i.id ∈ r'.ingredients) ∧
       (∀ i ∈ s2.ingredients, i ∈ (updateRecipe p rid f mode s2).2.ingredients) ∧
       (∀ i ∈ (updateRecipe p rid f mode s2).2.ingredients, i ∉ s2.ingredients →
         i.user = p ∧ i.name ∈ inames ∧
         s2.ingredients.find? (ingredientKeyIs p i.name) = none) ∧
       (∀ iid ∈ r'.ingredients, ∃ i ∈ (updateRecipe p rid f mode s2).2.ingredients,
         i.id = iid ∧ i.user = p ∧ i.name ∈ inames)) := by
  constructor
  · have hc := createRecipe_ok p f s h1 h2 h3 h4 h5 htags hings
    rw [hc]
    set s0 : Store := { s with nextId := s.nextId + 1 } with hs0
    have htagsEq : ((reconcileIngredients p inames (reconcileTags p tnames s0).2).2).tags =
        ((reconcileTags p tnames s0).2).tags :=
      reconcileIngredients_tags p inames (reconcileTags p tnames s0).2
    have hingBase : ((reconcileTags p tnames s0).2).ingredients = s.ingredients :=
      reconcileTags_ingredients p tnames s0
    refine ⟨rfl, ?_⟩
    refine ⟨{ id := s.nextId, title := ttl, time_minutes := tm, price := pr,
              description := f.description.getD "", link := f.link.getD "",
              user := p, tags := (reconcileTags p tnames s0).1.dedup,
              ingredients := (reconcileIngredients p inames
                (reconcileTags p tnames s0).2).1.dedup },
            by simp, rfl, rfl, ?_, ?_, ?_, ?_, ?_, ?_, ?_, ?_⟩
    · intro n hn
      obtain ⟨t, htm, hu, hname, hid⟩ := reconcileTags_resolves p tnames s0 n hn
      refine ⟨t, ?_, hu, hname, ?_⟩
      · simpa [htagsEq] using htm
      · simpa [List.mem_dedup] using hid
    · intro t htm
      obtain ⟨l, hl⟩ := reconcileTags_tags_append p tnames s0
      simp only [htagsEq, hl]
      exact List.mem_append_left _ htm
    · intro t htm hnot
      rw [htagsEq] at htm
      exact reconcileTags_new p tnames s0 t htm hnot
    · intro tid hid
      rw [List.mem_dedup] at hid
      obtain ⟨t, htm, hteq, hu, hname⟩ := reconcileTags_ids p tnames s0 tid hid
      exact ⟨t, by simpa [htagsEq] using htm, hteq, hu, hname⟩
    · intro n hn
      obtain ⟨i, him, hu, hname, hid⟩ :=
        reconcileIngredients_resolves p inames (reconcileTags p tnames s0).2 n hn
      exact ⟨i, him, hu, hname, by simpa [List.mem_dedup] using hid⟩
    · intro i him
      obtain ⟨l, hl⟩ :=
        reconcileIngredients_ingredients_append p inames (reconcileTags p tnames s0).2
      rw [hl, hingBase]
      exact List.mem_append_left _ him
    · intro i him hnot
      have hnot' : i ∉ ((reconcileTags p tnames s0).2).ingredients := by
        rw [hingBase]; exact hnot
      obtain ⟨hu, hname, hf⟩ :=
        reconcileIngredients_new p inames (reconcileTags p tnames s0).2 i him hnot'
      rw [hingBase] at hf
      exact ⟨hu, hname, hf⟩
    · intro iid hid
      rw [List.mem_dedup] at hid
      obtain ⟨i, him, hieq, hu, hname⟩ :=
        reconcileIngredients_ids p inames (reconcileTags p tnames s0).2 iid hid
      exact ⟨i, him, hieq, hu, hname⟩
  · have hput : mode = UpdateMode.put →
        f.title.isSome ∧ f.time_minutes.isSome ∧ f.price.isSome :=
      fun _ => ⟨by rw [h1]; rfl, by rw [h2]; rfl, by rw [h3]; rfl⟩
    have htm0 : 0 ≤ f.time_minutes.getD 0 := by rw [h2]; exact h4
    have hpr0 : 0 ≤ f.price.getD 0 := by rw [h3]; exact h5
    obtain ⟨h0, htags_eq, hings_eq, hfind'⟩ :=
      updateRecipe_success p rid f mode s2 r0 hfind hnodup hput htm0 hpr0
    have hat := applyAssoc_tags_some p f (applyScalars mode f r0) s2 htags
    obtain ⟨st, hstings, h1i, h2i⟩ :=
      applyAssoc_ings_some p f (applyScalars mode f r0) s2 hings
    refine ⟨h0, _, hfind', ?_, ?_, ?_, ?_, ?_, ?_, ?_, ?_⟩
    · intro n hn
      obtain ⟨t, htm2, hu, hname, hid⟩ := reconcileTags_resolves p tnames s2 n hn
      refine ⟨t, ?_, hu, hname, ?_⟩
      · rw [htags_eq, hat.2]; exact htm2
      · rw [hat.1, List.mem_dedup]; exact hid
    · intro t htmem
      obtain ⟨l, hl⟩ := reconcileTags_tags_append p tnames s2
      rw [htags_eq, hat.2, hl]
      exact List.mem_append_left _ htmem
    · intro t htmem hnot
      rw [htags_eq, hat.2] at htmem
      exact reconcileTags_new p tnames s2 t htmem hnot
    · intro tid hid
      rw [hat.1, List.mem_dedup] at hid
      obtain ⟨t, htmem, hteq, hu, hname⟩ := reconcileTags_ids p tnames s2 tid hid
      exact ⟨t, by rw [htags_eq, hat.2]; exact htmem, hteq, hu, hname⟩
    · intro n hn
      obtain ⟨i, himem, hu, hname, hid⟩ := reconcileIngredients_resolves p inames st n hn
      refine ⟨i, ?_, hu, hname, ?_⟩
      · rw [hings_eq, h2i]; exact himem
      · rw [h1i, List.mem_dedup]; exact hid
    · intro i himem
      obtain ⟨l, hl⟩ := reconcileIngredients_ingredients_append p inames st
      rw [hings_eq, h2i, hl, hstings]
      exact List.mem_append_left _ himem
    · intro i himem hnot
      rw [hings_eq, h2i] at himem
      have hnot' : i ∉ st.ingredients := by rw [hstings]; exact hnot
      obtain ⟨hu, hname, hf⟩ := reconcileIngredients_new p inames st i himem hnot'
      rw [hstings] at hf
      exact ⟨hu, hname, hf⟩
    · intro iid hid
      rw [h1i, List.mem_dedup] at hid
      obtain ⟨i, himem, hieq, hu, hname⟩ := reconcileIngredients_ids p inames st iid hid
      exact ⟨i, by rw [hings_eq, h2i]; exact himem, hieq, hu, hname⟩

/-- C4: nested-entity reconciliation is idempotent. Starting from a store
obeying the (owner, name) uniqueness convention, creating two recipes with
identical tag/ingredient descriptor lists succeeds twice, the second
application creates no new tags or ingredients at all, the uniqueness
convention is preserved, each supplied name is backed by exactly one owned
entity of that name, and neither created recipe carries duplicate
associations. -/
theorem recipe_create_reconciliation_idempotent
    (p : Nat) (f : RecipeFields) (s : Store) (ttl : String) (tm pr : Int)
    (tnames inames : List String)
    (h1 : f.title = some ttl) (h2 : f.time_minutes = some tm) (h3 : f.price = some pr)
    (h4 : 0 ≤ tm) (h5 : 0 ≤ pr)
    (htags : f.tags = some tnames) (hings : f.ingredients = some inames)
    (htk : TagKeysNodup s) (hik : IngredientKeysNodup s) :
    (createRecipe p f s).1 = none ∧
    (createRecipe p f (createRecipe p f s).2).1 = none ∧
    (createRecipe p f (createRecipe p f s).2).2.tags = (createRecipe p f s).2.tags ∧
    (createRecipe p f (createRecipe p f s).2).2.ingredients
      = (createRecipe p f s).2.ingredients ∧
    TagKeysNodup (createRecipe p f (createRecipe p f s).2).2 ∧
    IngredientKeysNodup (createRecipe p f (createRecipe p f s).2).2 ∧
    (∀ n ∈ tnames, ∃ t ∈ (createRecipe p f (createRecipe p f s).2).2.tags,
      t.user = p ∧ t.name = n ∧
      ∀ t' ∈ (createRecipe p f (createRecipe p f s).2).2.tags,
        t'.user = p → t'.name = n → t' = t) ∧
    (∀ n ∈ inames, ∃ i ∈ (createRecipe p f (createRecipe p f s).2).2.ingredients,
      i.user = p ∧ i.name = n ∧
      ∀ i' ∈ (createRecipe p f (createRecipe p f s).2).2.ingredients,
        i'.user = p → i'.name = n → i' = i) ∧
    (∀ r ∈ (createRecipe p f (createRecipe p f s).2).2.recipes, r ∉ s.recipes →
      r.tags.Nodup ∧ r.ingredients.Nodup) := by
  have hres_t : ∀ n ∈ tnames, ∃ t ∈ (createRecipe p f s).2.tags,
      t.user = p ∧ t.name = n := by
    intro n hn
    obtain ⟨t, htm, hu, hname, _⟩ :=
      reconcileTags_resolves p tnames { s with nextId := s.nextId + 1 } n hn
    rw [createRecipe_tags p f s h1 h2 h3 h4 h5 htags hings]
    exact ⟨t, htm, hu, hname⟩
  have hres_i : ∀ n ∈ inames, ∃ i ∈ (createRecipe p f s).2.ingredients,
      i.user = p ∧ i.name = n := by
    intro n hn
    obtain ⟨i, him, hu, hname, _⟩ := reconcileIngredients_resolves p inames
      (reconcileTags p tnames { s with nextId := s.nextId + 1 }).2 n hn
    rw [createRecipe_ings p f s h1 h2 h3 h4 h5 htags hings]
    exact ⟨i, him, hu, hname⟩
  have hall_t : ∀ n ∈ tnames,
      ((createRecipe p f s).2.tags.find? (tagKeyIs p n)).isSome := by
    intro n hn
    obtain ⟨t, htm, hu, hname⟩ := hres_t n hn
    exact find?_isSome_of_mem htm (by simp [tagKeyIs, hu, hname])
  have hall_i : ∀ n ∈ inames,
      ((createRecipe p f s).2.ingredients.find? (ingredientKeyIs p n)).isSome := by
    intro n hn
    obtain ⟨i, him, hu, hname⟩ := hres_i n hn
    exact find?_isSome_of_mem him (by simp [ingredientKeyIs, hu, hname])
  have hstab := createRecipe_stable_assoc p f (createRecipe p f s).2
    h1 h2 h3 h4 h5 htags hings hall_t hall_i
  have hnodup1 := createRecipe_keys_nodup p f s h1 h2 h3 h4 h5 htags hings htk hik
  have hnodup2 : TagKeysNodup (createRecipe p f (createRecipe p f s).2).2 ∧
      IngredientKeysNodup (createRecipe p f (createRecipe p f s).2).2 := by
    constructor
    · unfold TagKeysNodup
      rw [hstab.1]
      exact hnodup1.1
    · unfold IngredientKeysNodup
      rw [hstab.2]
      exact hnodup1.2
  refine ⟨?_, ?_, hstab.1, hstab.2, hnodup2.1, hnodup2.2, ?_, ?_, ?_⟩
  · rw [createRecipe_ok p f s h1 h2 h3 h4 h5 htags hings]
  · rw [createRecipe_ok p f (createRecipe p f s).2 h1 h2 h3 h4 h5 htags hings]
  · intro n hn
    obtain ⟨t, htm, hu, hname⟩ := hres_t n hn
    have htm2 : t ∈ (createRecipe p f (createRecipe p f s).2).2.tags := by
      rw [hstab.1]; exact htm
    refine ⟨t, htm2, hu, hname, ?_⟩
    intro t' ht' hu' hname'
    exact tag_key_unique hnodup2.1 ht' htm2 (by rw [hu', hu]) (by rw [hname', hname])
  · intro n hn
    obtain ⟨i, him, hu, hname⟩ := hres_i n hn
    have him2 : i ∈ (createRecipe p f (createRecipe p f s).2).2.ingredients := by
      rw [hstab.2]; exact him
    refine ⟨i, him2, hu, hname, ?_⟩
    intro i' hi' hu' hname'
    exact ingredient_key_unique hnodup2.2 hi' him2 (by rw [hu', hu]) (by rw [hname', hname])
  · intro r hr hnot
    rcases createRecipe_recipes_mem p f (createRecipe p f s).2
        h1 h2 h3 h4 h5 htags hings r hr with hmem | hprops
    · rcases createRecipe_recipes_mem p f s
          h1 h2 h3 h4 h5 htags hings r hmem with hmem2 | hprops2
      · exact absurd hmem2 hnot
      · exact ⟨hprops2.1, hprops2.2.1⟩
    · exact ⟨hprops.1, hprops.2.1⟩

/-- C4 witness: creating the same recipe payload twice from an empty store;
additionally the final store holds exactly 2 tags and 1 ingredient. -/
theorem recipe_create_reconciliation_idempotent_witness :
    ((createRecipe 1 idemFields emptyStore).1 = none ∧
     (createRecipe 1 idemFields (createRecipe 1 idemFields emptyStore).2).1 = none ∧
     (createRecipe 1 idemFields (createRecipe 1 idemFields emptyStore).2).2.tags
       = (createRecipe 1 idemFields emptyStore).2.tags ∧
     (createRecipe 1 idemFields (createRecipe 1 idemFields emptyStore).2).2.ingredients
       = (createRecipe 1 idemFields emptyStore).2.ingredients ∧
     TagKeysNodup (createRecipe 1 idemFields (createRecipe 1 idemFields emptyStore).2).2 ∧
     IngredientKeysNodup
       (createRecipe 1 idemFields (createRecipe 1 idemFields emptyStore).2).2 ∧
     (∀ n ∈ ["Thai", "Dinner"],
       ∃ t ∈ (createRecipe 1 idemFields (createRecipe 1 idemFields emptyStore).2).2.tags,
         t.user = 1 ∧ t.name = n ∧
         ∀ t' ∈ (createRecipe 1 idemFields
             (createRecipe 1 idemFields emptyStore).2).2.tags,
           t'.user = 1 → t'.name = n → t' = t) ∧
     (∀ n ∈ ["Salt"],
       ∃ i ∈ (createRecipe 1 idemFields
           (createRecipe 1 idemFields emptyStore).2).2.ingredients,
         i.user = 1 ∧ i.name = n ∧
         ∀ i' ∈ (createRecipe 1 idemFields
             (createRecipe 1 idemFields emptyStore).2).2.ingredients,
           i'.user = 1 → i'.name = n → i' = i) ∧
     (∀ r ∈ (createRecipe 1 idemFields
         (createRecipe 1 idemFields emptyStore).2).2.recipes,
       r ∉ emptyStore.recipes → r.tags.Nodup ∧ r.ingredients.Nodup)) ∧
    (createRecipe 1 idemFields (createRecipe 1 idemFields emptyStore).2).2.tags.length = 2 ∧
    (createRecipe 1 idemFields
      (createRecipe 1 idemFields emptyStore).2).2.ingredients.length = 1 :=
  ⟨recipe_create_reconciliation_idempotent 1 idemFields emptyStore
      "Thai Prawn Curry" 30 250 ["Thai", "Dinner"] ["Salt"] rfl rfl rfl
      (by decide) (by decide) rfl rfl (by decide) (by decide),
    by decide, by decide⟩

/-- C3 witness: in the scenario the create succeeds with the
reconciliation facts, exactly one new Tag ("Japanese") is created, and the
created recipe is associated with both tags including the reused "Chinese"
(id 0); patching user 1's owned recipe with the same descriptor payload
also succeeds with the same reconciliation facts, the pre-existing
"breakfast" tag surviving alongside the two resolved ones. -/
theorem recipe_write_reconciles_descriptors_witness :
    ((createRecipe 1 scenarioFields scenarioStore).1 = none ∧
     ∃ r ∈ (createRecipe 1 scenarioFields scenarioStore).2.recipes,
       r.id = scenarioStore.nextId ∧ r.user = 1 ∧
       (∀ n ∈ ["Chinese", "Japanese"],
         ∃ t ∈ (createRecipe 1 scenarioFields scenarioStore).2.tags,
           t.user = 1 ∧ t.name = n ∧ t.id ∈ r.tags) ∧
       (∀ t ∈ scenarioStore.tags, t ∈ (createRecipe 1 scenarioFields scenarioStore).2.tags) ∧
       (∀ t ∈ (createRecipe 1 scenarioFields scenarioStore).2.tags, t ∉ scenarioStore.tags →
         t.user = 1 ∧ t.name ∈ ["Chinese", "Japanese"] ∧
         scenarioStore.tags.find? (tagKeyIs 1 t.name) = none) ∧
       (∀ tid ∈ r.tags, ∃ t ∈ (createRecipe 1 scenarioFields scenarioStore).2.tags,
         t.id = tid ∧ t.user = 1 ∧ t.name ∈ ["Chinese", "Japanese"]) ∧
       (∀ n ∈ ([] : List String),
         ∃ i ∈ (createRecipe 1 scenarioFields scenarioStore).2.ingredients,
           i.user = 1 ∧ i.name = n ∧ i.id ∈ r.ingredients) ∧
       (∀ i ∈ scenarioStore.ingredients,
         i ∈ (createRecipe 1 scenarioFields scenarioStore).2.ingredients) ∧
       (∀ i ∈ (createRecipe 1 scenarioFields scenarioStore).2.ingredients,
         i ∉ scenarioStore.ingredients →
         i.user = 1 ∧ i.name ∈ ([] : List String) ∧
         scenarioStore.ingredients.find? (ingredientKeyIs 1 i.name) = none) ∧
       (∀ iid ∈ r.ingredients,
         ∃ i ∈ (createRecipe 1 scenarioFields scenarioStore).2.ingredients,
           i.id = iid ∧ i.user = 1 ∧ i.name ∈ ([] : List String))) ∧
    ((updateRecipe 1 5 scenarioFields .patch ownStore).1 = none ∧
     ∃ r', (updateRecipe 1 5 scenarioFields .patch ownStore).2.recipes.find?
         (recipeOwnedBy 1 5) = some r' ∧
       (∀ n ∈ ["Chinese", "Japanese"],
         ∃ t ∈ (updateRecipe 1 5 scenarioFields .patch ownStore).2.tags,
           t.user = 1 ∧ t.name = n ∧ t.id ∈ r'.tags) ∧
       (∀ t ∈ ownStore.tags,
         t ∈ (updateRecipe 1 5 scenarioFields .patch ownStore).2.tags) ∧
       (∀ t ∈ (updateRecipe 1 5 scenarioFields .patch ownStore).2.tags,
         t ∉ ownStore.tags →
         t.user = 1 ∧ t.name ∈ ["Chinese", "Japanese"] ∧
         ownStore.tags.find? (tagKeyIs 1 t.name) = none) ∧
       (∀ tid ∈ r'.tags, ∃ t ∈ (updateRecipe 1 5 scenarioFields .patch ownStore).2.tags,
         t.id = tid ∧ t.user = 1 ∧ t.name ∈ ["Chinese", "Japanese"]) ∧
       (∀ n ∈ ([] : List String),
         ∃ i ∈ (updateRecipe 1 5 scenarioFields .patch ownStore).2.ingredients,
           i.user = 1 ∧ i.name = n ∧ i.id ∈ r'.ingredients) ∧
       (∀ i ∈ ownStore.ingredients,
         i ∈ (updateRecipe 1 5 scenarioFields .patch ownStore).2.ingredients) ∧
       (∀ i ∈ (updateRecipe 1 5 scenarioFields .patch ownStore).2.ingredients,
         i ∉ ownStore.ingredients →
         i.user = 1 ∧ i.name ∈ ([] : List String) ∧
         ownStore.ingredients.find? (ingredientKeyIs 1 i.name) = none) ∧
       (∀ iid ∈ r'.ingredients,
         ∃ i ∈ (updateRecipe 1 5 scenarioFields .patch ownStore).2.ingredients,
           i.id = iid ∧ i.user = 1 ∧ i.name ∈ ([] : List String))) ∧
    (createRecipe 1 scenarioFields scenarioStore).2.tags =
      [{ id := 0, name := "Chinese", user := 1 },
       { id := 2, name := "Japanese", user := 1 }] ∧
    (createRecipe 1 scenarioFields scenarioStore).2.recipes.map Recipe.tags = [[0, 2]] ∧
    ((updateRecipe 1 5 scenarioFields .patch ownStore).2.tags.map Tag.name)
      = ["breakfast", "Chinese", "Japanese"] := by
  have h := recipe_write_reconciles_descriptors 1 5 scenarioFields scenarioStore ownStore
    ownRecipe .patch "Thai Prawn Curry" 30 250 ["Chinese", "Japanese"] [] rfl rfl rfl
    (by decide) (by decide) rfl rfl rfl (by decide)
  exact ⟨h.1, h.2, by decide, by decide, by decide⟩

/-- C1: for every principal `p` and every entity (recipe, tag or ingredient)
whose id is not owned by `p` — either because no entity has that id or
because its owner is someone else — get, update and delete all fail with
NotFound, the exact same outcome as for a nonexistent id. -/
theorem cross_user_access_yields_not_found
    (p rid tid iid : Nat) (s : Store) (fr : RecipeFields) (mode : UpdateMode)
    (ft : TagFields) (fi : IngredientFields)
    (hr : ∀ r ∈ s.recipes, r.id = rid → r.user ≠ p)
    (ht : ∀ t ∈ s.tags, t.id = tid → t.user ≠ p)
    (hi : ∀ i ∈ s.ingredients, i.id = iid → i.user ≠ p) :
    getRecipe p rid s = .error .notFound ∧
    (updateRecipe p rid fr mode s).1 = some .notFound ∧
    (deleteRecipe p rid s).1 = some .notFound ∧
    getTag p tid s = .error .notFound ∧
    (updateTag p tid ft s).1 = some .notFound ∧
    (deleteTag p tid s).1 = some .notFound ∧
    getIngredient p iid s = .error .notFound ∧
    (updateIngredient p iid fi s).1 = some .notFound ∧
    (deleteIngredient p iid s).1 = some .notFound := by
  have h1 := find?_recipeOwnedBy_eq_none hr
  have h2 := find?_tagOwnedBy_eq_none ht
  have h3 := find?_ingredientOwnedBy_eq_none hi
  refine ⟨?_, ?_, ?_, ?_, ?_, ?_, ?_, ?_, ?_⟩ <;>
    simp [getRecipe, updateRecipe, deleteRecipe, getTag, updateTag, deleteTag,
      getIngredient, updateIngredient, deleteIngredient, h1, h2, h3]

/-- C1 witness: principal 1 acting on the fixture entities owned by user 2. -/
theorem cross_user_access_yields_not_found_witness :
    getRecipe 1 5 fixtureStore = .error .notFound ∧
    (updateRecipe 1 5 {} .patch fixtureStore).1 = some .notFound ∧
    (deleteRecipe 1 5 fixtureStore).1 = some .notFound ∧
    getTag 1 6 fixtureStore = .error .notFound ∧
    (updateTag 1 6 {} fixtureStore).1 = some .notFound ∧
    (deleteTag 1 6 fixtureStore).1 = some .notFound ∧
    getIngredient 1 7 fixtureStore = .error .notFound ∧
    (updateIngredient 1 7 {} fixtureStore).1 = some .notFound ∧
    (deleteIngredient 1 7 fixtureStore).1 = some .notFound :=
  cross_user_access_yields_not_found 1 5 6 7 fixtureStore {} .patch {} {}
    (by decide) (by decide) (by decide)

/-- C2: `list(p, T)` contains exactly the entities of type `T` owned by `p`:
every entity it returns is owned by `p` and lives in the store, and every
stored entity owned by `p` is returned; entities of other principals never
appear. -/
theorem list_scoped_to_principal (p : Nat) (s : Store) :
    (∀ r : Recipe, r ∈ listRecipes p s ↔ r ∈ s.recipes ∧ r.user = p) ∧
    (∀ t : Tag, t ∈ listTags p s ↔ t ∈ s.tags ∧ t.user = p) ∧
    (∀ i : Ingredient, i ∈ listIngredients p s ↔ i ∈ s.ingredients ∧ i.user = p) := by
  refine ⟨fun r => ?_, fun t => ?_, fun i => ?_⟩ <;>
    simp [listRecipes, listTags, listIngredients, List.mem_filter]

/-- C9: `list(p, T)` returns exactly `p`'s entities in the resource's fixed
total order — recipes pairwise by id descending, tags and ingredients
pairwise by name descending — and it is a permutation of the owned subset
of the store. -/
theorem list_returns_owned_entities_ordered (p : Nat) (s : Store) :
    (listRecipes p s).Pairwise (fun a b => b.id ≤ a.id) ∧
    (listRecipes p s).Perm (s.recipes.filter (fun r => r.user == p)) ∧
    (listTags p s).Pairwise (fun a b => b.name ≤ a.name) ∧
    (listTags p s).Perm (s.tags.filter (fun t => t.user == p)) ∧
    (listIngredients p s).Pairwise (fun a b => b.name ≤ a.name) ∧
    (listIngredients p s).Perm (s.ingredients.filter (fun i => i.user == p)) :=
  ⟨List.sorted_insertionSort recipeDesc _,
   List.perm_insertionSort recipeDesc _,
   List.sorted_insertionSort tagDesc _,
   List.perm_insertionSort tagDesc _,
   List.sorted_insertionSort ingredientDesc _,
   List.perm_insertionSort ingredientDesc _⟩

/-- C10: a delete or update aimed at an entity owned by another principal
fails with NotFound and is atomic: the returned store is identical to the
input store, so the foreign-owned entity still exists with all its fields
and associations unchanged. -/
theorem failed_mutation_preserves_store
    (p rid tid iid : Nat) (s : Store) (fr : RecipeFields) (mode : UpdateMode)
    (ft : TagFields) (fi : IngredientFields)
    (r0 : Recipe) (t0 : Tag) (i0 : Ingredient)
    (hr0 : r0 ∈ s.recipes) (hr0id : r0.id = rid)
    (ht0 : t0 ∈ s.tags) (ht0id : t0.id = tid)
    (hi0 : i0 ∈ s.ingredients) (hi0id : i0.id = iid)
    (hr : ∀ r ∈ s.recipes, r.id = rid → r.user ≠ p)
    (ht : ∀ t ∈ s.tags, t.id = tid → t.user ≠ p)
    (hi : ∀ i ∈ s.ingredients, i.id = iid → i.user ≠ p) :
    deleteRecipe p rid s = (some .notFound, s) ∧
    updateRecipe p rid fr mode s = (some .notFound, s) ∧
    r0 ∈ (deleteRecipe p rid s).2.recipes ∧
    r0 ∈ (updateRecipe p rid fr mode s).2.recipes ∧
    deleteTag p tid s = (some .notFound, s) ∧
    updateTag p tid ft s = (some .notFound, s) ∧
    t0 ∈ (deleteTag p tid s).2.tags ∧
    t0 ∈ (updateTag p tid ft s).2.tags ∧
    deleteIngredient p iid s = (some .notFound, s) ∧
    updateIngredient p iid fi s = (some .notFound, s) ∧
    i0 ∈ (deleteIngredient p iid s).2.ingredients ∧
    i0 ∈ (updateIngredient p iid fi s).2.ingredients := by
  have h1 := find?_recipeOwnedBy_eq_none hr
  have h2 := find?_tagOwnedBy_eq_none ht
  have h3 := find?_ingredientOwnedBy_eq_none hi
  refine ⟨?_, ?_, ?_, ?_, ?_, ?_, ?_, ?_, ?_, ?_, ?_, ?_⟩ <;>
    simp [deleteRecipe, updateRecipe, deleteTag, updateTag, deleteIngredient,
      updateIngredient, h1, h2, h3, hr0, ht0, hi0]

/-- C10 witness: principal 1 fails to delete or update the fixture entities
owned by user 2, and the store survives unchanged. -/
theorem failed_mutation_preserves_store_witness :
    deleteRecipe 1 5 fixtureStore = (some .notFound, fixtureStore) ∧
    updateRecipe 1 5 {} .patch fixtureStore = (some .notFound, fixtureStore) ∧
    fixtureStore.recipes.head? = some ((deleteRecipe 1 5 fixtureStore).2.recipes.headD
      { id := 0, title := "", time_minutes := 0, price := 0, description := "",
        link := "", user := 0, tags := [], ingredients := [] }) ∧
    deleteTag 1 6 fixtureStore = (some .notFound, fixtureStore) ∧
    updateTag 1 6 {} fixtureStore = (some .notFound, fixtureStore) ∧
    deleteIngredient 1 7 fixtureStore = (some .notFound, fixtureStore) ∧
    updateIngredient 1 7 {} fixtureStore = (some .notFound, fixtureStore) := by
  have h := failed_mutation_preserves_store 1 5 6 7 fixtureStore {} .patch {} {}
    (fixtureStore.recipes.headD
      { id := 0, title := "", time_minutes := 0, price := 0, description := "",
        link := "", user := 0, tags := [], ingredients := [] })
    ({ id := 6, name := "Diary", user := 2 }) ({ id := 7, name := "Salt", user := 2 })
    (by decide) (by decide) (by decide) (by decide) (by decide) (by decide)
    (by decide) (by decide) (by decide)
  exact ⟨h.1, h.2.1, by decide, h.2.2.2.2.1, h.2.2.2.2.2.1, h.2.2.2.2.2.2.2.2.1,
    h.2.2.2.2.2.2.2.2.2.1⟩

end RecipeApp
